import Mathlib

/-!
# Zone-map construction and the two-phase zone-map scan

A shallow embedding of `createZonemap` (src/preprocessing.hpp) and of the
constructor and `process_filter` of `ZonemapFilter<T>`
(src/query_proccessor/scan/zonemap_filter.hpp).

Conventions of the embedding.

* A file is the list of its records; a non-sequential read at record position
  `p` sees the records from `p` on.
* C++ `int` positions, indices and counters are natural numbers.  The one
  `int` operation that small inputs can take out of range, the product of line
  117 of `process_filter`, is modelled twice: exactly in `process_filter`, and
  as the 32-bit `int` holds it in `process_filter32`; the two agree whenever
  every block start position fits an `int` (`process_filter32_eq`).
* A run is a record of the final program state together with ghost traces
  (the zones handed to the write buffer, the positions handed to the position
  buffer, the start positions of the data reads).  An access that C++ leaves
  undefined (`front()` of an empty vector, `data[i]` past `data.size()`, a
  push of `createZonemap` into a zone buffer without a free slot) stops the
  run and is recorded in the field `fault`; nothing is said about what happens
  after it.
* `block.hpp`, `zonemap/Zone.hpp`, `predicate.hpp` and `constants.hpp` are not
  among the sources; what the two functions use of them is modelled from the
  specification and marked so.
-/

namespace CX4123

/-! ## Collaborators that are not among the sources -/

/-- Modelled from the spec: `predicate.hpp` is missing.  An atomic predicate is
an opaque comparator with a method `evaluate(value) -> bool`. -/
structure AtomicPredicate (α : Type) where
  evaluate_expr : α → Bool

/-- Modelled from the spec: the comparator `v >= a` (a simple inequality
comparator, the kind the design assumes). -/
def AtomicPredicate.ge {α : Type} [LinearOrder α] (a : α) : AtomicPredicate α :=
  ⟨fun v => decide (a ≤ v)⟩

/-- Modelled from the spec: the comparator `v <= b`. -/
def AtomicPredicate.le {α : Type} [LinearOrder α] (b : α) : AtomicPredicate α :=
  ⟨fun v => decide (v ≤ b)⟩

/-- Modelled from the spec: the comparator that accepts every value (the
missing member of a one-sided range). -/
def AtomicPredicate.always {α : Type} : AtomicPredicate α :=
  ⟨fun _ => true⟩

/-- A predicate range `(lower, upper)`, the element type of `preds`:
`std::pair<AtomicPredicate<T>, AtomicPredicate<T>>`. -/
abbrev PredicateRange (α : Type) := AtomicPredicate α × AtomicPredicate α

/-- Modelled from the spec: `zonemap/Zone.hpp` is missing.
`Zone = {block_index: int, min: T, max: T}`, built by
`Zone(block_index, first, last)` and read by `getMin()`, `getMax()`. -/
structure Zone (α : Type) where
  block_index : Nat
  min : α
  max : α
deriving DecidableEq, Repr, Inhabited

/-- Modelled from the spec: `block.hpp` is missing.  A block buffer has a
`capacity` (`num_elements`, the records per block), its `contents`
(`block_data`) and the `range` of record positions it holds after a read. -/
structure Block (α : Type) where
  num_elements : Nat
  block_data : List α
  range : Nat × Nat
deriving Repr

/-- Modelled from the spec: the constructor `Block<T>(block_size)`;
`capacity = block_size_bytes / sizeof(T)`.  The slots of a fresh buffer hold
an arbitrary value, here the default of the type. -/
def Block.new {α : Type} [Inhabited α] (block_size sizeof_elem : Nat) : Block α :=
  { num_elements := block_size / sizeof_elem
    block_data := List.replicate (block_size / sizeof_elem) default
    range := (0, 0) }

/-- Modelled from the spec: `read_block(stream, start_position, false)`.
Seeks to `start_position`, reads up to `capacity` records or until the end of
the stream, whichever is smaller, updates `range`, and returns `false` when
zero records were read. -/
def Block.read_data {α : Type} (b : Block α) (stream : List α) (start_pos : Nat) :
    Block α × Bool :=
  let records := (stream.drop start_pos).take b.num_elements
  ({ b with block_data := records, range := (start_pos, start_pos + records.length - 1) },
   !records.isEmpty)

/-- Modelled from the spec: `push(record, index)` writes `record` into
`contents[index]`; `index < capacity` is the caller's contract and is not
checked.  The function itself stores nothing at an index outside `contents`;
`createZonemapLoop` records such a push of line 43 as the fault
`push_out_of_capacity`, and the theorems that equate the output file of
`process_filter` with the pushed positions assume a position buffer of at
least one slot. -/
def Block.push_data {α : Type} (b : Block α) (record : α) (index : Nat) : Block α :=
  { b with block_data := b.block_data.set index record }

/-- Modelled from the spec: `is_full(count)` is `count >= capacity`. -/
def Block.is_full {α : Type} (b : Block α) (count : Nat) : Bool :=
  decide (b.num_elements ≤ count)

/-- Modelled from the spec: `write_block(stream, count)` appends `count`
records from `contents` to `stream`. -/
def Block.write_data {α : Type} (b : Block α) (stream : List α) (count : Nat) : List α :=
  stream ++ b.block_data.take count

/-- Modelled from the spec: `clear()` resets the fill bookkeeping and is not
guaranteed to zero memory: the slots keep their stale records. -/
def Block.clear {α : Type} (b : Block α) : Block α :=
  { b with range := (0, 0) }

/-- Accesses that C++ leaves undefined, and a loop that cannot end. -/
inductive Fault where
  /-- The calls `block_data.front()` and `back()` on an empty block read at `pos`. -/
  | front_of_empty_block (pos : Nat)
  /-- The access `data[data_index]` with `data_index >= data.size()`, in the
  block read at `start_position`. -/
  | data_index_out_of_range (start_position data_index size : Nat)
  /-- The `for` loop of `createZonemap` with a stride of zero records. -/
  | loop_does_not_advance
  /-- The call `push_data(record, index)` with `index >= capacity`, outside the
  contract of the write buffer. -/
  | push_out_of_capacity (index capacity : Nat)
deriving DecidableEq, Repr

/-! ## `createZonemap` (src/preprocessing.hpp, lines 22-61) -/

/-- The state of `createZonemap`: the zone write buffer, its fill pointer and
the zone file written so far; `emitted` is the ghost trace of the zones built
at line 42 and stored by `push_data`. -/
structure ZonemapRun (α : Type) where
  emitted : List (Zone α)
  write_block : Block (Zone α)
  blk_ptr : Nat
  zoneOutStream : List (Zone α)
  fault : Option Fault
deriving Repr

/-- Lines 43-50: the zone is pushed at `blk_ptr`, and the write buffer is
written out and cleared when it is full. -/
def bufferZone {α : Type} (st : ZonemapRun α) (zone : Zone α) : ZonemapRun α :=
  let write_block := st.write_block.push_data zone st.blk_ptr
  let blk_ptr := st.blk_ptr + 1
  if write_block.is_full blk_ptr then
    { emitted := st.emitted ++ [zone]
      write_block := write_block.clear
      blk_ptr := 0
      zoneOutStream := write_block.write_data st.zoneOutStream blk_ptr
      fault := st.fault }
  else
    { emitted := st.emitted ++ [zone]
      write_block := write_block
      blk_ptr := blk_ptr
      zoneOutStream := st.zoneOutStream
      fault := st.fault }

/-- The `for` loop of lines 35-54.  The first argument bounds the number of
iterations; `num_rows` iterations are enough whenever the stride is at least
one record.  The value `read_data` returns is not looked at.  The push of
line 43 is inside the contract of `push_data` only when `blk_ptr` is smaller
than the capacity of the zone write buffer; a push outside it stops the run. -/
def createZonemapLoop {α : Type} (num_rows num_records_per_block : Nat)
    (yearDataStream : List α) :
    Nat → Nat → Nat → Block α → ZonemapRun α → ZonemapRun α
  | 0, pos, _, _, st =>
    if pos < num_rows then { st with fault := some Fault.loop_does_not_advance } else st
  | fuel + 1, pos, block_index, year_read_block, st =>
    if pos < num_rows then
      let year_read_block := (year_read_block.read_data yearDataStream pos).1
      match year_read_block.block_data.head?, year_read_block.block_data.getLast? with
      | some year1, some year2 =>
        if st.blk_ptr < st.write_block.num_elements then
          createZonemapLoop num_rows num_records_per_block yearDataStream fuel
            (pos + num_records_per_block) (block_index + 1) year_read_block
            (bufferZone st (Zone.mk block_index year1 year2))
        else
          { st with
            fault := some (Fault.push_out_of_capacity st.blk_ptr st.write_block.num_elements) }
      | _, _ => { st with fault := some (Fault.front_of_empty_block pos) }
    else st

/-- The function `createZonemap<T>(block_size, filename)`.  `sizeof_T` and `sizeof_Zone`
are `sizeof(T)` and `sizeof(Zone<T>)`, `num_rows` is
`ProgramConstants::num_rows`, `yearDataStream` the column file. -/
def createZonemap {α : Type} [Inhabited α] (block_size sizeof_T sizeof_Zone num_rows : Nat)
    (yearDataStream : List α) : ZonemapRun α :=
  let num_records_per_block := block_size / sizeof_T
  let year_read_block : Block α := Block.new block_size sizeof_T
  let write_block : Block (Zone α) := Block.new block_size sizeof_Zone
  let st := createZonemapLoop num_rows num_records_per_block yearDataStream num_rows 0 0
    year_read_block
    { emitted := [], write_block := write_block, blk_ptr := 0, zoneOutStream := [],
      fault := none }
  if st.fault.isNone && st.blk_ptr != 0 then
    { st with zoneOutStream := st.write_block.write_data st.zoneOutStream st.blk_ptr }
  else st

/-! ## `ZonemapFilter<T>::process_filter` (zonemap_filter.hpp, lines 84-167) -/

/-- The inner loop of phase 1 (lines 102-110): the ranges are tried in order
and the loop breaks at the first one with `lower(ZoneMin) && upper(ZoneMax)`. -/
def zone_qualifies {α : Type} (ZoneMin ZoneMax : α) : List (PredicateRange α) → Bool
  | [] => false
  | pred_pair :: rest =>
    if pred_pair.1.evaluate_expr ZoneMin && pred_pair.2.evaluate_expr ZoneMax then true
    else zone_qualifies ZoneMin ZoneMax rest

/-- The outer loop of phase 1 (lines 97-111) from `block_index` on; the first
argument is the part of `zones` not yet visited. -/
def pruneLoop {α : Type} (preds : List (PredicateRange α)) :
    List (Zone α) → Nat → List Nat → List Nat
  | [], _, qualified_block_indices => qualified_block_indices
  | zone :: rest, block_index, qualified_block_indices =>
    pruneLoop preds rest (block_index + 1)
      (if zone_qualifies zone.min zone.max preds then qualified_block_indices ++ [block_index]
       else qualified_block_indices)

/-- The state of phase 2: the position write buffer, its fill count, the
output file written so far and the I/O counter; `reads` is the ghost trace of
the start positions passed to `read_data`, `pushed` the ghost trace of the
positions passed to `push_data`. -/
structure FilterRun where
  qualified_block_indices : List Nat
  reads : List Nat
  num_data_ios : Nat
  pushed : List Nat
  qualified_positions_block : Block Nat
  num_qualified_tuples : Nat
  position_output_file : List Nat
  fault : Option Fault
deriving Repr

/-- Lines 139-146: the position is pushed at `num_qualified_tuples`, and the
position buffer is written out (all `num_elements` slots) and cleared when it
is full. -/
def pushPosition (st : FilterRun) (position : Nat) : FilterRun :=
  let block := st.qualified_positions_block.push_data position st.num_qualified_tuples
  let num_qualified_tuples := st.num_qualified_tuples + 1
  if block.is_full num_qualified_tuples then
    { st with
      pushed := st.pushed ++ [position]
      qualified_positions_block := block.clear
      num_qualified_tuples := 0
      position_output_file := block.write_data st.position_output_file block.num_elements }
  else
    { st with
      pushed := st.pushed ++ [position]
      qualified_positions_block := block
      num_qualified_tuples := num_qualified_tuples }

/-- The loop over the ranges for one record (lines 134-148).  It has no
`break`: every matching range pushes the position. -/
def predLoop {α : Type} (value : α) (position : Nat) :
    List (PredicateRange α) → FilterRun → FilterRun
  | [], st => st
  | pred_pair :: rest, st =>
    predLoop value position rest
      (if pred_pair.1.evaluate_expr value && pred_pair.2.evaluate_expr value then
        pushPosition st position
       else st)

/-- The record loop of lines 131-150, `while (data_index < num_elements)`
with `data_index++`; the first argument is the number of iterations left,
`num_elements - data_index`. -/
def recordLoop {α : Type} (preds : List (PredicateRange α)) (data : List α)
    (req_block_start_position : Nat) : Nat → Nat → FilterRun → FilterRun
  | 0, _, st => st
  | left + 1, data_index, st =>
    match data[data_index]? with
    | none =>
      { st with
        fault := some (Fault.data_index_out_of_range req_block_start_position data_index
          data.length) }
    | some value =>
      recordLoop preds data req_block_start_position left (data_index + 1)
        (predLoop value (req_block_start_position + data_index) preds st)

/-- Lines 119-122: the read at `req_block_start_position` is traced, and
counted when it returned records. -/
def countRead (st : FilterRun) (req_block_start_position : Nat) (read : Bool) : FilterRun :=
  { st with
    reads := st.reads ++ [req_block_start_position]
    num_data_ios := if read then st.num_data_ios + 1 else st.num_data_ios }

/-- The loop over the candidate blocks (lines 115-152); the first argument is
the part of `qualified_block_indices` from `block_index` on.  The start
position of line 117 is the exact product here; `blockLoop32` computes it as
the `int` of the code does. -/
def blockLoop {α : Type} (preds : List (PredicateRange α)) (data_file : List α) :
    List Nat → Block α → FilterRun → FilterRun
  | [], _, st => st
  | qualified :: rest, data_block, st =>
    let req_block_start_position := qualified * data_block.num_elements
    let res := data_block.read_data data_file req_block_start_position
    let st1 := countRead st req_block_start_position res.2
    let data := res.1.block_data
    if data.length = 0 then st1
    else
      let data_index := req_block_start_position - res.1.range.1
      let st2 := recordLoop preds data req_block_start_position
        (res.1.num_elements - data_index) data_index st1
      if st2.fault.isSome then st2 else blockLoop preds data_file rest res.1 st2

/-- The method `process_filter(preds)` on the loaded `zones`.  `sizeof_T` is `sizeof(T)`,
`sizeof_position` is `sizeof(ColumnTypeConstants::position)`; all three block
buffers are built from `this->block_size`.  Block start positions are exact
products; `process_filter32` computes them in `int` and agrees with this
function whenever they fit an `int`. -/
def process_filter {α : Type} [Inhabited α] (zones : List (Zone α))
    (block_size sizeof_T sizeof_position : Nat) (data_file : List α)
    (preds : List (PredicateRange α)) : FilterRun :=
  let data_block : Block α := Block.new block_size sizeof_T
  let qualified_positions_block : Block Nat := Block.new block_size sizeof_position
  let qualified_block_indices := pruneLoop preds zones 0 []
  let st := blockLoop preds data_file qualified_block_indices data_block
    { qualified_block_indices := qualified_block_indices, reads := [], num_data_ios := 0,
      pushed := [], qualified_positions_block := qualified_positions_block,
      num_qualified_tuples := 0, position_output_file := [], fault := none }
  if st.fault.isNone && decide (0 < st.num_qualified_tuples) then
    { st with
      position_output_file :=
        st.qualified_positions_block.write_data st.position_output_file st.num_qualified_tuples
      num_qualified_tuples := 0
      qualified_positions_block := st.qualified_positions_block.clear }
  else st

/-- The product `a * b` of two non-negative `int`s as the 32-bit
two's-complement `int` of line 117 holds it: the low 32 bits of the exact
product, and `none` when these bits denote a negative number. -/
def int_mul (a b : Nat) : Option Nat :=
  if (a * b) % 2 ^ 32 < 2 ^ 31 then some ((a * b) % 2 ^ 32) else none

/-- The loop over the candidate blocks (lines 115-152) with
`req_block_start_position` computed in `int` (line 117).  A negative start
position makes the seek of the read fail: no record is read and the loop ends
at line 126, as for every other read without records. -/
def blockLoop32 {α : Type} (preds : List (PredicateRange α)) (data_file : List α) :
    List Nat → Block α → FilterRun → FilterRun
  | [], _, st => st
  | qualified :: rest, data_block, st =>
    match int_mul qualified data_block.num_elements with
    | none => st
    | some req_block_start_position =>
      let res := data_block.read_data data_file req_block_start_position
      let st1 := countRead st req_block_start_position res.2
      let data := res.1.block_data
      if data.length = 0 then st1
      else
        let data_index := req_block_start_position - res.1.range.1
        let st2 := recordLoop preds data req_block_start_position
          (res.1.num_elements - data_index) data_index st1
        if st2.fault.isSome then st2 else blockLoop32 preds data_file rest res.1 st2

/-- The method `process_filter(preds)` with the block start positions of line
117 computed in `int`; otherwise as `process_filter`. -/
def process_filter32 {α : Type} [Inhabited α] (zones : List (Zone α))
    (block_size sizeof_T sizeof_position : Nat) (data_file : List α)
    (preds : List (PredicateRange α)) : FilterRun :=
  let data_block : Block α := Block.new block_size sizeof_T
  let qualified_positions_block : Block Nat := Block.new block_size sizeof_position
  let qualified_block_indices := pruneLoop preds zones 0 []
  let st := blockLoop32 preds data_file qualified_block_indices data_block
    { qualified_block_indices := qualified_block_indices, reads := [], num_data_ios := 0,
      pushed := [], qualified_positions_block := qualified_positions_block,
      num_qualified_tuples := 0, position_output_file := [], fault := none }
  if st.fault.isNone && decide (0 < st.num_qualified_tuples) then
    { st with
      position_output_file :=
        st.qualified_positions_block.write_data st.position_output_file st.num_qualified_tuples
      num_qualified_tuples := 0
      qualified_positions_block := st.qualified_positions_block.clear }
  else st

/-- A zone map of 65537 zones over blocks of 65536 records: zone 65536 is
`(65536, 5, 5)`, every zone `k` before it is `(k, 0, 0)`. -/
def wideZoneMap : List (Zone Int) :=
  ((List.range 65536).map fun k => (⟨k, 0, 0⟩ : Zone Int)) ++ [⟨65536, 5, 5⟩]

/-- A zone map of 65537 zones over blocks of 65536 records: the zones 1 and
65536 are `(1, 5, 5)` and `(65536, 5, 5)`, every other zone `k` is
`(k, 0, 0)`. -/
def wideZoneMapTwo : List (Zone Int) :=
  (⟨0, 0, 0⟩ : Zone Int) :: ⟨1, 5, 5⟩ ::
    (((List.range 65534).map fun k => (⟨k + 2, 0, 0⟩ : Zone Int)) ++ [⟨65536, 5, 5⟩])

/-- A column of two blocks of 65536 records: the first record of each block
is 5, every other record is 0. -/
def twoBlockColumn : List Int :=
  (5 :: List.replicate 65535 0) ++ (5 :: List.replicate 65535 0)

/-- The ranges `(v >= a, v <= b)` for a list of interval bounds `(a, b)`. -/
def intervalPreds {α : Type} [LinearOrder α] (bounds : List (α × α)) :
    List (PredicateRange α) :=
  bounds.map fun ab => (AtomicPredicate.ge ab.1, AtomicPredicate.le ab.2)

/-- The invariant of the position buffer between two pushes: the buffer has
its `num_elements` slots, and either it has no slot at all and nothing was
written, or it is not full and the output file followed by the filled part of
the buffer is the sequence of positions pushed so far. -/
def BufInv (st : FilterRun) : Prop :=
  st.qualified_positions_block.block_data.length = st.qualified_positions_block.num_elements ∧
  ((st.qualified_positions_block.num_elements = 0 ∧ st.num_qualified_tuples = 0 ∧
      st.position_output_file = []) ∨
   (st.num_qualified_tuples < st.qualified_positions_block.num_elements ∧
      st.position_output_file ++ st.qualified_positions_block.block_data.take
        st.num_qualified_tuples = st.pushed))

/-- The record-level test of line 137 over the whole predicate set: some
range has `lower(v) && upper(v)`. -/
def accepts_value {α : Type} (preds : List (PredicateRange α)) (v : α) : Bool :=
  preds.any fun pred_pair => pred_pair.1.evaluate_expr v && pred_pair.2.evaluate_expr v

/-- The state of `process_filter` when the loop over the candidate blocks has
ended (line 153), before the final flush of lines 154-159. -/
def scanState {α : Type} [Inhabited α] (zones : List (Zone α))
    (block_size sizeof_T sizeof_position : Nat) (data_file : List α)
    (preds : List (PredicateRange α)) : FilterRun :=
  blockLoop preds data_file (pruneLoop preds zones 0 []) (Block.new block_size sizeof_T)
    { qualified_block_indices := pruneLoop preds zones 0 [], reads := [], num_data_ios := 0,
      pushed := [], qualified_positions_block := Block.new block_size sizeof_position,
      num_qualified_tuples := 0, position_output_file := [], fault := none }

/-- The invariant of the zone write buffer of `createZonemap` between two
pushes, for a buffer of at least one slot: the buffer is not full, and the
zone file followed by the filled part of the buffer is the sequence of zones
emitted so far. -/
def ZoneBufInv {α : Type} (st : ZonemapRun α) : Prop :=
  st.write_block.block_data.length = st.write_block.num_elements ∧
  st.blk_ptr < st.write_block.num_elements ∧
  st.zoneOutStream ++ st.write_block.block_data.take st.blk_ptr = st.emitted

/-! ## The constructor `ZonemapFilter<T>::ZonemapFilter` (zonemap_filter.hpp, lines 49-74) -/

/-- An input file stream read sequentially: its records, the read position
(in records) and the `good()` flag, which a read that meets the end of the
stream clears. -/
structure InStream (α : Type) where
  records : List α
  position : Nat
  good : Bool

/-- Modelled from the spec: `read_next_block(stream)`, the sequential form of
`read_block`.  Reads from the current position of the stream up to `capacity`
records or until the end of the stream, updates `range`, and returns `false`
when zero records were read. -/
def Block.read_next_block {α : Type} (b : Block α) (stream : InStream α) :
    Block α × Bool × InStream α :=
  let records := (stream.records.drop stream.position).take b.num_elements
  ({ b with
      block_data := records
      range := (stream.position, stream.position + records.length - 1) },
   !records.isEmpty,
   { stream with
      position := stream.position + records.length
      good := stream.good && decide (b.num_elements ≤ records.length) })

/-- The members of `ZonemapFilter<T>` that `process_filter` uses. -/
structure ZonemapFilter (α : Type) where
  block_size : Nat
  zones : List (Zone α)

/-- The loop of lines 62-73 that loads the zone map: while the stream is
good, the next block is read; a read without records ends the loop, otherwise
the records of the block are appended to `zones`.  The first argument bounds
the number of iterations; the result is `none` when it does not suffice. -/
def loadZonesLoop {α : Type} :
    Nat → Block (Zone α) → InStream (Zone α) → List (Zone α) → Option (List (Zone α))
  | 0, _, zonemap_file, zones => if zonemap_file.good then none else some zones
  | fuel + 1, zone_block, zonemap_file, zones =>
    if zonemap_file.good then
      let res := zone_block.read_next_block zonemap_file
      if !res.2.1 then some zones
      else loadZonesLoop fuel res.1 res.2.2 (zones ++ res.1.block_data)
    else some zones

/-- The constructor, on the zone-map file `zonemap_file` (opened at its
start); `sizeof_Zone` is `sizeof(Zone<T>)`.  One iteration per record of the
file and one more are enough for the loading loop. -/
def ZonemapFilter.new {α : Type} [Inhabited α] (zonemap_file : List (Zone α))
    (block_size sizeof_Zone : Nat) : Option (ZonemapFilter α) :=
  (loadZonesLoop (zonemap_file.length + 1) (Block.new block_size sizeof_Zone)
    { records := zonemap_file, position := 0, good := true } []).map
    fun zones => { block_size := block_size, zones := zones }

/-! ## Phase 1: the candidate list -/

theorem zone_qualifies_eq_any {α : Type} (ZoneMin ZoneMax : α) (preds : List (PredicateRange α)) :
    zone_qualifies ZoneMin ZoneMax preds
      = preds.any fun pp => pp.1.evaluate_expr ZoneMin && pp.2.evaluate_expr ZoneMax := by
  induction preds with
  | nil => rfl
  | cons pp rest ih =>
    simp only [zone_qualifies, List.any_cons, ih]
    cases pp.1.evaluate_expr ZoneMin && pp.2.evaluate_expr ZoneMax <;> simp

theorem mem_pruneLoop {α : Type} (preds : List (PredicateRange α)) (k : Nat) :
    ∀ (zs : List (Zone α)) (b : Nat) (acc : List Nat),
      k ∈ pruneLoop preds zs b acc ↔
        k ∈ acc ∨ ∃ z, b ≤ k ∧ zs[k - b]? = some z ∧ zone_qualifies z.min z.max preds = true := by
  intro zs
  induction zs with
  | nil => intro b acc; simp [pruneLoop]
  | cons z rest ih =>
    intro b acc
    rw [pruneLoop, ih]
    constructor
    · rintro (h | ⟨z1, hb, hz, hq⟩)
      · by_cases hq : zone_qualifies z.min z.max preds = true
        · rw [if_pos hq, List.mem_append, List.mem_singleton] at h
          rcases h with h | h
          · exact Or.inl h
          · exact Or.inr ⟨z, by omega, by simp [h], hq⟩
        · rw [if_neg hq] at h; exact Or.inl h
      · refine Or.inr ⟨z1, by omega, ?_, hq⟩
        have : k - b = (k - (b + 1)) + 1 := by omega
        rw [this, List.getElem?_cons_succ]; exact hz
    · rintro (h | ⟨z1, hb, hz, hq⟩)
      · left; split
        · exact List.mem_append_left _ h
        · exact h
      · by_cases hk : k = b
        · subst hk
          simp only [Nat.sub_self, List.getElem?_cons_zero, Option.some.injEq] at hz
          subst hz
          left; rw [if_pos hq]; simp
        · right
          refine ⟨z1, by omega, ?_, hq⟩
          have : k - b = (k - (b + 1)) + 1 := by omega
          rw [this, List.getElem?_cons_succ] at hz; exact hz

theorem pruneLoop_sorted {α : Type} (preds : List (PredicateRange α)) :
    ∀ (zs : List (Zone α)) (b : Nat) (acc : List Nat),
      acc.Sorted (· < ·) → (∀ x ∈ acc, x < b) →
        (pruneLoop preds zs b acc).Sorted (· < ·) := by
  intro zs
  induction zs with
  | nil => intro b acc h _; simpa [pruneLoop] using h
  | cons z rest ih =>
    intro b acc hs hb
    rw [pruneLoop]
    apply ih
    · split
      · unfold List.Sorted
        rw [List.pairwise_append]
        refine ⟨hs, List.pairwise_singleton _ _, ?_⟩
        intro x hx y hy
        rw [List.mem_singleton] at hy
        subst hy; exact hb x hx
      · exact hs
    · intro x hx
      split at hx
      · rw [List.mem_append, List.mem_singleton] at hx
        rcases hx with hx | hx
        · exact Nat.lt_succ_of_lt (hb x hx)
        · omega
      · exact Nat.lt_succ_of_lt (hb x hx)

/-! ## Phase 2: fields the inner loops leave alone -/

theorem pushPosition_frame (st : FilterRun) (position : Nat) :
    (pushPosition st position).reads = st.reads ∧
    (pushPosition st position).num_data_ios = st.num_data_ios ∧
    (pushPosition st position).qualified_block_indices = st.qualified_block_indices ∧
    (pushPosition st position).fault = st.fault := by
  unfold pushPosition
  simp only
  split <;> simp

theorem predLoop_frame {α : Type} (value : α) (position : Nat) :
    ∀ (preds : List (PredicateRange α)) (st : FilterRun),
      (predLoop value position preds st).reads = st.reads ∧
      (predLoop value position preds st).num_data_ios = st.num_data_ios ∧
      (predLoop value position preds st).qualified_block_indices = st.qualified_block_indices ∧
      (predLoop value position preds st).fault = st.fault := by
  intro preds
  induction preds with
  | nil => intro st; simp [predLoop]
  | cons pp rest ih =>
    intro st
    rw [predLoop]
    by_cases hc : (pp.1.evaluate_expr value && pp.2.evaluate_expr value) = true
    · rw [if_pos hc]
      have h := ih (pushPosition st position)
      have f := pushPosition_frame st position
      rw [f.1, f.2.1, f.2.2.1, f.2.2.2] at h
      exact h
    · rw [if_neg hc]; exact ih st

theorem recordLoop_frame {α : Type} (preds : List (PredicateRange α)) (data : List α)
    (start : Nat) :
    ∀ (left data_index : Nat) (st : FilterRun),
      (recordLoop preds data start left data_index st).reads = st.reads ∧
      (recordLoop preds data start left data_index st).num_data_ios = st.num_data_ios ∧
      (recordLoop preds data start left data_index st).qualified_block_indices
        = st.qualified_block_indices := by
  intro left
  induction left with
  | zero => intro di st; simp [recordLoop]
  | succ left ih =>
    intro di st
    rw [recordLoop]
    split
    · simp
    · rename_i value _
      have h := ih (di + 1) (predLoop value (start + di) preds st)
      have f := predLoop_frame value (start + di) preds st
      rw [h.1, h.2.1, h.2.2, f.1, f.2.1, f.2.2.1]
      simp

theorem read_data_num_elements {α : Type} (b : Block α) (stream : List α) (p : Nat) :
    (b.read_data stream p).1.num_elements = b.num_elements := rfl

/-- One iteration of the loop over the candidate blocks, with the block read
spelled out: the record loop starts at `data_index = 0`. -/
theorem blockLoop_cons {α : Type} (preds : List (PredicateRange α)) (data_file : List α)
    (q : Nat) (rest : List Nat) (db : Block α) (st : FilterRun) :
    blockLoop preds data_file (q :: rest) db st =
      if ((data_file.drop (q * db.num_elements)).take db.num_elements).length = 0 then
        countRead st (q * db.num_elements) false
      else
        if (recordLoop preds ((data_file.drop (q * db.num_elements)).take db.num_elements)
            (q * db.num_elements) db.num_elements 0
            (countRead st (q * db.num_elements) true)).fault.isSome then
          recordLoop preds ((data_file.drop (q * db.num_elements)).take db.num_elements)
            (q * db.num_elements) db.num_elements 0 (countRead st (q * db.num_elements) true)
        else
          blockLoop preds data_file rest (db.read_data data_file (q * db.num_elements)).1
            (recordLoop preds ((data_file.drop (q * db.num_elements)).take db.num_elements)
              (q * db.num_elements) db.num_elements 0
              (countRead st (q * db.num_elements) true)) := by
  rw [blockLoop]
  simp only [Block.read_data, Nat.sub_self, Nat.sub_zero]
  by_cases h : ((data_file.drop (q * db.num_elements)).take db.num_elements).length = 0
  · rw [if_pos h, if_pos h]
    rw [List.length_eq_zero] at h
    rw [h]; rfl
  · rw [if_neg h, if_neg h]
    have : (!((data_file.drop (q * db.num_elements)).take db.num_elements).isEmpty) = true := by
      cases hl : (data_file.drop (q * db.num_elements)).take db.num_elements with
      | nil => rw [hl] at h; simp at h
      | cons _ _ => rfl
    rw [this]

theorem blockLoop_reads {α : Type} (preds : List (PredicateRange α)) (data_file : List α) :
    ∀ (qs : List Nat) (data_block : Block α) (st : FilterRun),
      ∀ s ∈ (blockLoop preds data_file qs data_block st).reads,
        s ∈ st.reads ∨ ∃ q ∈ qs, s = q * data_block.num_elements := by
  intro qs
  induction qs with
  | nil => intro db st s hs; left; simpa [blockLoop] using hs
  | cons q rest ih =>
    intro db st s hs
    have key : ∀ b, s ∈ (countRead st (q * db.num_elements) b).reads →
        s ∈ st.reads ∨ ∃ q1 ∈ q :: rest, s = q1 * db.num_elements := by
      intro b h
      simp only [countRead, List.mem_append, List.mem_singleton] at h
      rcases h with h | h
      · exact Or.inl h
      · exact Or.inr ⟨q, List.mem_cons_self _ _, h⟩
    rw [blockLoop_cons] at hs
    split at hs
    · exact key _ hs
    · split at hs
      · rw [(recordLoop_frame _ _ _ _ _ _).1] at hs
        exact key _ hs
      · rcases ih _ _ s hs with h | ⟨q1, hq1, h⟩
        · rw [(recordLoop_frame _ _ _ _ _ _).1] at h
          exact key _ h
        · exact Or.inr ⟨q1, List.mem_cons_of_mem _ hq1, h⟩

theorem blockLoop_candidates {α : Type} (preds : List (PredicateRange α)) (data_file : List α) :
    ∀ (qs : List Nat) (data_block : Block α) (st : FilterRun),
      (blockLoop preds data_file qs data_block st).qualified_block_indices
        = st.qualified_block_indices := by
  intro qs
  induction qs with
  | nil => intro db st; simp [blockLoop]
  | cons q rest ih =>
    intro db st
    rw [blockLoop_cons]
    split
    · rfl
    · split
      · rw [(recordLoop_frame _ _ _ _ _ _).2.2]; rfl
      · rw [ih, (recordLoop_frame _ _ _ _ _ _).2.2]; rfl

theorem process_filter_candidates {α : Type} [Inhabited α] (zones : List (Zone α))
    (block_size sizeof_T sizeof_position : Nat) (data_file : List α)
    (preds : List (PredicateRange α)) :
    (process_filter zones block_size sizeof_T sizeof_position data_file
      preds).qualified_block_indices = pruneLoop preds zones 0 [] := by
  unfold process_filter
  simp only
  split
  · simp only [blockLoop_candidates]
  · simp only [blockLoop_candidates]

theorem process_filter_reads {α : Type} [Inhabited α] (zones : List (Zone α))
    (block_size sizeof_T sizeof_position : Nat) (data_file : List α)
    (preds : List (PredicateRange α)) :
    ∀ s ∈ (process_filter zones block_size sizeof_T sizeof_position data_file preds).reads,
      ∃ q ∈ pruneLoop preds zones 0 [], s = q * (block_size / sizeof_T) := by
  intro s hs
  unfold process_filter at hs
  simp only at hs
  have key : ∀ st0 : FilterRun, st0.reads = [] →
      s ∈ (blockLoop preds data_file (pruneLoop preds zones 0 [])
        (Block.new block_size sizeof_T : Block α) st0).reads →
      ∃ q ∈ pruneLoop preds zones 0 [], s = q * (block_size / sizeof_T) := by
    intro st0 h0 h
    rcases blockLoop_reads preds data_file _ _ _ s h with h1 | h1
    · rw [h0] at h1; simp at h1
    · exact h1
  split at hs
  · exact key _ rfl hs
  · exact key _ rfl hs

/-! ## Phase 2: the positions pushed -/

theorem pushPosition_pushed (st : FilterRun) (position : Nat) :
    (pushPosition st position).pushed = st.pushed ++ [position] := by
  unfold pushPosition
  simp only
  split <;> rfl

theorem predLoop_pushed {α : Type} (value : α) (position : Nat) :
    ∀ (preds : List (PredicateRange α)) (st : FilterRun),
      ∃ m, (predLoop value position preds st).pushed
        = st.pushed ++ List.replicate m position := by
  intro preds
  induction preds with
  | nil => intro st; exact ⟨0, by simp [predLoop]⟩
  | cons pp rest ih =>
    intro st
    rw [predLoop]
    by_cases hc : (pp.1.evaluate_expr value && pp.2.evaluate_expr value) = true
    · rw [if_pos hc]
      obtain ⟨m, hm⟩ := ih (pushPosition st position)
      refine ⟨m + 1, ?_⟩
      rw [hm, pushPosition_pushed, List.append_assoc, List.replicate_succ]
      rfl
    · rw [if_neg hc]; exact ih st

theorem recordLoop_pushed {α : Type} (preds : List (PredicateRange α)) (data : List α)
    (start : Nat) :
    ∀ (left data_index : Nat) (st : FilterRun),
      ∃ l, (recordLoop preds data start left data_index st).pushed = st.pushed ++ l ∧
        l.Sorted (· ≤ ·) ∧
        ∀ x ∈ l, start + data_index ≤ x ∧ x < start + data_index + left := by
  intro left
  induction left with
  | zero => intro di st; exact ⟨[], by simp [recordLoop]⟩
  | succ left ih =>
    intro di st
    rw [recordLoop]
    split
    · exact ⟨[], by simp⟩
    · rename_i value _
      obtain ⟨m, hm⟩ := predLoop_pushed value (start + di) preds st
      obtain ⟨l, hl, hs, hb⟩ := ih (di + 1) (predLoop value (start + di) preds st)
      refine ⟨List.replicate m (start + di) ++ l, ?_, ?_, ?_⟩
      · rw [hl, hm, List.append_assoc]
      · unfold List.Sorted
        rw [List.pairwise_append]
        refine ⟨?_, hs, ?_⟩
        · rw [List.pairwise_replicate]
          exact Or.inr (le_refl _)
        · intro x hx y hy
          rw [List.eq_of_mem_replicate hx]
          have := (hb y hy).1
          omega
      · intro x hx
        rw [List.mem_append] at hx
        rcases hx with hx | hx
        · rw [List.eq_of_mem_replicate hx]; omega
        · have := hb x hx
          omega

theorem countRead_pushed (st : FilterRun) (p : Nat) (b : Bool) :
    (countRead st p b).pushed = st.pushed := rfl

/-- The positions pushed by the loop over the candidate blocks form an
ascending sequence, each inside one of the candidate blocks. -/
theorem blockLoop_pushed {α : Type} (preds : List (PredicateRange α)) (data_file : List α) :
    ∀ (qs : List Nat) (db : Block α) (st : FilterRun), qs.Sorted (· < ·) →
      ∃ l, (blockLoop preds data_file qs db st).pushed = st.pushed ++ l ∧
        l.Sorted (· ≤ ·) ∧
        ∀ x ∈ l, ∃ q ∈ qs, q * db.num_elements ≤ x ∧ x < q * db.num_elements + db.num_elements := by
  intro qs
  induction qs with
  | nil => intro db st _; exact ⟨[], by simp [blockLoop]⟩
  | cons q rest ih =>
    intro db st hq
    have hq1 : ∀ q1 ∈ rest, q < q1 := List.rel_of_sorted_cons hq
    have hq2 : rest.Sorted (· < ·) := List.Sorted.of_cons hq
    obtain ⟨l1, hl1, hs1, hb1⟩ := recordLoop_pushed preds
      ((data_file.drop (q * db.num_elements)).take db.num_elements) (q * db.num_elements)
      db.num_elements 0 (countRead st (q * db.num_elements) true)
    rw [countRead_pushed] at hl1
    have hb1 : ∀ x ∈ l1, q * db.num_elements ≤ x ∧ x < q * db.num_elements + db.num_elements := by
      intro x hx
      have := hb1 x hx
      omega
    rw [blockLoop_cons]
    split
    · exact ⟨[], by simp [countRead], by simp, by simp⟩
    · split
      · exact ⟨l1, hl1, hs1, fun x hx => ⟨q, List.mem_cons_self _ _, hb1 x hx⟩⟩
      · obtain ⟨l2, hl2, hs2, hb2⟩ := ih (db.read_data data_file (q * db.num_elements)).1
          (recordLoop preds ((data_file.drop (q * db.num_elements)).take db.num_elements)
            (q * db.num_elements) db.num_elements 0 (countRead st (q * db.num_elements) true))
          hq2
        rw [read_data_num_elements] at hb2
        refine ⟨l1 ++ l2, ?_, ?_, ?_⟩
        · rw [hl2, hl1, List.append_assoc]
        · unfold List.Sorted
          rw [List.pairwise_append]
          refine ⟨hs1, hs2, ?_⟩
          intro x hx y hy
          obtain ⟨q1, hq1m, hlo, _⟩ := hb2 y hy
          have h1 := (hb1 x hx).2
          have h2 : (q + 1) * db.num_elements ≤ q1 * db.num_elements :=
            Nat.mul_le_mul_right _ (hq1 q1 hq1m)
          rw [Nat.add_mul, Nat.one_mul] at h2
          omega
        · intro x hx
          rw [List.mem_append] at hx
          rcases hx with hx | hx
          · exact ⟨q, List.mem_cons_self _ _, hb1 x hx⟩
          · obtain ⟨q1, hq1m, h⟩ := hb2 x hx
            exact ⟨q1, List.mem_cons_of_mem _ hq1m, h⟩

/-! ## Phase 2: the position buffer and the output file -/

theorem take_succ_set {α : Type} (a : α) :
    ∀ (l : List α) (n : Nat), n < l.length → (l.set n a).take (n + 1) = l.take n ++ [a] := by
  intro l
  induction l with
  | nil => intro n h; simp at h
  | cons x xs ih =>
    intro n h
    cases n with
    | zero => simp
    | succ n =>
      simp only [List.set_cons_succ, List.take_succ_cons, List.cons_append, List.cons.injEq,
        true_and]
      exact ih n (by simpa using h)

theorem pushPosition_inv (st : FilterRun) (position : Nat) (h : BufInv st) :
    BufInv (pushPosition st position) := by
  obtain ⟨hlen, h⟩ := h
  unfold pushPosition
  simp only [Block.push_data, Block.is_full, Block.clear, Block.write_data, decide_eq_true_eq]
  rcases h with ⟨h0, hn, hf⟩ | ⟨hlt, hf⟩
  · have hnil : st.qualified_positions_block.block_data = [] := by
      rw [← List.length_eq_zero, hlen, h0]
    rw [if_pos (by omega)]
    refine ⟨by simpa using hlen, Or.inl ⟨h0, rfl, ?_⟩⟩
    simp [hf, hnil]
  · split
    · rename_i hfull
      have he : st.qualified_positions_block.num_elements = st.num_qualified_tuples + 1 := by
        omega
      refine ⟨by simpa using hlen, Or.inr ⟨by simp only; omega, ?_⟩⟩
      simp only [List.take_zero, List.append_nil]
      rw [he, take_succ_set _ _ _ (by omega), ← List.append_assoc, hf]
    · refine ⟨by simpa using hlen, Or.inr ⟨by simp only; omega, ?_⟩⟩
      simp only
      rw [take_succ_set _ _ _ (by omega), ← List.append_assoc, hf]

theorem predLoop_inv {α : Type} (value : α) (position : Nat) :
    ∀ (preds : List (PredicateRange α)) (st : FilterRun), BufInv st →
      BufInv (predLoop value position preds st) := by
  intro preds
  induction preds with
  | nil => intro st h; simpa [predLoop] using h
  | cons pp rest ih =>
    intro st h
    rw [predLoop]
    by_cases hc : (pp.1.evaluate_expr value && pp.2.evaluate_expr value) = true
    · rw [if_pos hc]; exact ih _ (pushPosition_inv st position h)
    · rw [if_neg hc]; exact ih st h

theorem recordLoop_inv {α : Type} (preds : List (PredicateRange α)) (data : List α)
    (start : Nat) :
    ∀ (left data_index : Nat) (st : FilterRun), BufInv st →
      BufInv (recordLoop preds data start left data_index st) := by
  intro left
  induction left with
  | zero => intro di st h; simpa [recordLoop] using h
  | succ left ih =>
    intro di st h
    rw [recordLoop]
    split
    · exact h
    · exact ih _ _ (predLoop_inv _ _ preds st h)

theorem blockLoop_inv {α : Type} (preds : List (PredicateRange α)) (data_file : List α) :
    ∀ (qs : List Nat) (db : Block α) (st : FilterRun), BufInv st →
      BufInv (blockLoop preds data_file qs db st) := by
  intro qs
  induction qs with
  | nil => intro db st h; simpa [blockLoop] using h
  | cons q rest ih =>
    intro db st h
    have hc : ∀ b, BufInv (countRead st (q * db.num_elements) b) := fun _ => h
    rw [blockLoop_cons]
    split
    · exact hc _
    · split
      · exact recordLoop_inv _ _ _ _ _ _ (hc _)
      · exact ih _ _ (recordLoop_inv _ _ _ _ _ _ (hc _))

theorem BufInv_new (block_size sizeof_position : Nat) (qs : List Nat) :
    BufInv
      { qualified_block_indices := qs, reads := [], num_data_ios := 0, pushed := [],
        qualified_positions_block := (Block.new block_size sizeof_position : Block Nat),
        num_qualified_tuples := 0, position_output_file := [], fault := none } := by
  refine ⟨by simp [Block.new], ?_⟩
  by_cases h : block_size / sizeof_position = 0
  · exact Or.inl ⟨h, rfl, rfl⟩
  · exact Or.inr ⟨Nat.pos_of_ne_zero h, rfl⟩

/-- The output file of `process_filter` is a prefix of the sequence of the
positions pushed, and that sequence is ascending. -/
theorem process_filter_output_initial {α : Type} [Inhabited α] (zones : List (Zone α))
    (block_size sizeof_T sizeof_position : Nat) (data_file : List α)
    (preds : List (PredicateRange α)) :
    (process_filter zones block_size sizeof_T sizeof_position data_file
        preds).position_output_file <+:
      (process_filter zones block_size sizeof_T sizeof_position data_file preds).pushed ∧
    (process_filter zones block_size sizeof_T sizeof_position data_file
        preds).pushed.Sorted (· ≤ ·) := by
  have hinv := blockLoop_inv preds data_file (pruneLoop preds zones 0 [])
    (Block.new block_size sizeof_T : Block α) _
    (BufInv_new block_size sizeof_position (pruneLoop preds zones 0 []))
  obtain ⟨l, hl, hs, _⟩ := blockLoop_pushed preds data_file (pruneLoop preds zones 0 [])
    (Block.new block_size sizeof_T : Block α)
    { qualified_block_indices := pruneLoop preds zones 0 [], reads := [], num_data_ios := 0,
      pushed := [], qualified_positions_block := (Block.new block_size sizeof_position : Block Nat),
      num_qualified_tuples := 0, position_output_file := [], fault := none }
    (pruneLoop_sorted preds zones 0 [] List.sorted_nil (by simp))
  simp only [List.nil_append] at hl
  obtain ⟨hlen, hcase⟩ := hinv
  unfold process_filter
  simp only
  split
  · refine ⟨?_, by rw [hl]; exact hs⟩
    simp only [Block.write_data]
    rcases hcase with ⟨h0, hn, hf⟩ | ⟨hlt, hf⟩
    · rw [hf, List.length_eq_zero.1 (hlen.trans h0)]
      simp
    · rw [hf]
  · refine ⟨?_, by rw [hl]; exact hs⟩
    rcases hcase with ⟨h0, hn, hf⟩ | ⟨hlt, hf⟩
    · rw [hf]; exact List.nil_prefix
    · exact ⟨_, hf⟩

/-! ## Zone construction -/

theorem lt_ceil_div_iff (n c k : Nat) (hc : 0 < c) : k < (n + c - 1) / c ↔ k * c < n := by
  rw [Nat.lt_iff_add_one_le, Nat.le_div_iff_mul_le hc, Nat.add_mul]
  omega

theorem bufferZone_emitted {α : Type} (st : ZonemapRun α) (zone : Zone α) :
    (bufferZone st zone).emitted = st.emitted ++ [zone] ∧
    (bufferZone st zone).fault = st.fault := by
  unfold bufferZone
  simp only
  split <;> simp

theorem sorted_getElem?_le {α : Type} [LinearOrder α] (col : List α)
    (hs : col.Sorted (· ≤ ·)) (i j : Nat) (a b : α) (hij : i ≤ j)
    (ha : col[i]? = some a) (hb : col[j]? = some b) : a ≤ b := by
  rcases List.getElem?_eq_some.1 ha with ⟨hi, rfl⟩
  rcases List.getElem?_eq_some.1 hb with ⟨hj, rfl⟩
  rcases Nat.eq_or_lt_of_le hij with h | h
  · subst h; exact le_refl _
  · exact List.pairwise_iff_getElem.1 hs i j hi hj h

/-- The chunk read at `pos < n` is not empty; its first record is `col[pos]`
and its last record is `col[min (pos + c) n - 1]`. -/
theorem chunk_front_back {α : Type} (col : List α) (c pos : Nat) (hc : 0 < c)
    (hpos : pos < col.length) :
    ∃ lo hi, col[pos]? = some lo ∧ col[min (pos + c) col.length - 1]? = some hi ∧
      ((col.drop pos).take c).head? = some lo ∧ ((col.drop pos).take c).getLast? = some hi := by
  have h1 : pos < col.length := hpos
  have h2 : min (pos + c) col.length - 1 < col.length := by omega
  refine ⟨col[pos], col[min (pos + c) col.length - 1], List.getElem?_eq_getElem h1,
    List.getElem?_eq_getElem h2, ?_, ?_⟩
  · rw [List.head?_take, if_neg (by omega), List.head?_drop, List.getElem?_eq_getElem h1]
  · rw [List.getLast?_eq_getElem?, List.length_take, List.length_drop,
      List.getElem?_take_of_lt (by omega), List.getElem?_drop]
    have : pos + (min c (col.length - pos) - 1) = min (pos + c) col.length - 1 := by omega
    rw [this, List.getElem?_eq_getElem h2]

/-- What the loop of `createZonemap` emits from block `bi` on, when the row
count is the column length and the stride is at least one record. -/
theorem bufferZone_blk_ptr {α : Type} (st : ZonemapRun α) (zone : Zone α)
    (h : st.blk_ptr < st.write_block.num_elements) :
    (bufferZone st zone).blk_ptr < (bufferZone st zone).write_block.num_elements := by
  unfold bufferZone
  simp only [Block.push_data, Block.is_full, Block.clear, decide_eq_true_eq]
  split
  · simp only; omega
  · simp only; omega

theorem createZonemapLoop_spec {α : Type} (c : Nat) (col : List α) (hc : 0 < c) :
    ∀ (fuel pos bi : Nat) (rb : Block α) (st : ZonemapRun α),
      rb.num_elements = c → pos = bi * c → col.length ≤ pos + fuel → st.fault = none →
      st.blk_ptr < st.write_block.num_elements →
      (createZonemapLoop col.length c col fuel pos bi rb st).fault = none ∧
      ∃ l, (createZonemapLoop col.length c col fuel pos bi rb st).emitted = st.emitted ++ l ∧
        l.length = (col.length + c - 1) / c - bi ∧
        ∀ j, j < l.length → ∃ lo hi, col[(bi + j) * c]? = some lo ∧
          col[min ((bi + j + 1) * c) col.length - 1]? = some hi ∧
          l[j]? = some ⟨bi + j, lo, hi⟩ := by
  intro fuel
  induction fuel with
  | zero =>
    intro pos bi rb st _ hpos hfuel hf _
    have hge : ¬ pos < col.length := by omega
    rw [createZonemapLoop, if_neg hge]
    refine ⟨hf, [], by simp, ?_, by simp⟩
    have := (lt_ceil_div_iff col.length c bi hc).not.2 (hpos ▸ hge)
    simp only [List.length_nil]; omega
  | succ fuel ih =>
    intro pos bi rb st hrb hpos hfuel hf hptr
    rw [createZonemapLoop]
    by_cases hlt : pos < col.length
    · rw [if_pos hlt]
      obtain ⟨lo, hi, hlo, hhi, hfront, hback⟩ := chunk_front_back col c pos hc hlt
      simp only [Block.read_data, hrb, hfront, hback, if_pos hptr]
      have hb := bufferZone_emitted st (Zone.mk bi lo hi)
      obtain ⟨hfault, l, hl, hlen, hall⟩ := ih (pos + c) (bi + 1)
        { num_elements := c, block_data := (col.drop pos).take c,
          range := (pos, pos + ((col.drop pos).take c).length - 1) }
        (bufferZone st (Zone.mk bi lo hi)) rfl (by rw [hpos, Nat.add_mul, Nat.one_mul])
        (by omega) (by rw [hb.2]; exact hf) (bufferZone_blk_ptr st _ hptr)
      have hbi : bi < (col.length + c - 1) / c :=
        (lt_ceil_div_iff col.length c bi hc).2 (hpos ▸ hlt)
      refine ⟨hfault, Zone.mk bi lo hi :: l, ?_, ?_, ?_⟩
      · rw [hl, hb.1, List.append_assoc]; rfl
      · rw [List.length_cons, hlen]; omega
      · intro j hj
        cases j with
        | zero =>
          refine ⟨lo, hi, ?_, ?_, by simp⟩
          · rw [Nat.add_zero, ← hpos]; exact hlo
          · rw [Nat.add_zero, Nat.add_mul, Nat.one_mul, ← hpos]; exact hhi
        | succ j =>
          obtain ⟨lo1, hi1, h1, h2, h3⟩ := hall j (by simpa using hj)
          refine ⟨lo1, hi1, ?_, ?_, ?_⟩
          · rw [show bi + (j + 1) = bi + 1 + j by omega]; exact h1
          · rw [show bi + (j + 1) + 1 = bi + 1 + j + 1 by omega]; exact h2
          · rw [List.getElem?_cons_succ, h3, show bi + (j + 1) = bi + 1 + j by omega]
    · rw [if_neg hlt]
      refine ⟨hf, [], by simp, ?_, by simp⟩
      have := (lt_ceil_div_iff col.length c bi hc).not.2 (hpos ▸ hlt)
      simp only [List.length_nil]; omega

/-- Every zone the loop of `createZonemap` emits is `(k, first, last)` for the
first and last record of chunk `k`, whatever the capacity of the zone write
buffer. -/
theorem createZonemapLoop_emitted_chunk {α : Type} (c : Nat) (col : List α) (hc : 0 < c) :
    ∀ (fuel pos bi : Nat) (rb : Block α) (st : ZonemapRun α),
      rb.num_elements = c → pos = bi * c →
      (∀ z ∈ st.emitted, col[z.block_index * c]? = some z.min ∧
        col[min ((z.block_index + 1) * c) col.length - 1]? = some z.max) →
      ∀ z ∈ (createZonemapLoop col.length c col fuel pos bi rb st).emitted,
        col[z.block_index * c]? = some z.min ∧
        col[min ((z.block_index + 1) * c) col.length - 1]? = some z.max := by
  intro fuel
  induction fuel with
  | zero =>
    intro pos bi rb st _ _ h
    rw [createZonemapLoop]
    split
    · exact h
    · exact h
  | succ fuel ih =>
    intro pos bi rb st hrb hpos h
    rw [createZonemapLoop]
    by_cases hlt : pos < col.length
    · rw [if_pos hlt]
      obtain ⟨lo, hi, hlo, hhi, hfront, hback⟩ := chunk_front_back col c pos hc hlt
      simp only [Block.read_data, hrb, hfront, hback]
      split
      · apply ih (pos + c) (bi + 1)
          { num_elements := c, block_data := (col.drop pos).take c,
            range := (pos, pos + ((col.drop pos).take c).length - 1) }
          (bufferZone st (Zone.mk bi lo hi)) rfl (by rw [hpos, Nat.add_mul, Nat.one_mul])
        intro z hz
        rw [(bufferZone_emitted _ _).1, List.mem_append, List.mem_singleton] at hz
        rcases hz with hz | hz
        · exact h z hz
        · subst hz
          refine ⟨by simp only; rw [← hpos]; exact hlo, ?_⟩
          simp only
          rw [Nat.add_mul, Nat.one_mul, ← hpos]; exact hhi
      · exact h
    · rw [if_neg hlt]; exact h

theorem createZonemap_emitted_eq {α : Type} [Inhabited α]
    (block_size sizeof_T sizeof_Zone num_rows : Nat) (col : List α) :
    (createZonemap block_size sizeof_T sizeof_Zone num_rows col).emitted =
      (createZonemapLoop num_rows (block_size / sizeof_T) col num_rows 0 0
        (Block.new block_size sizeof_T)
        { emitted := [], write_block := Block.new block_size sizeof_Zone, blk_ptr := 0,
          zoneOutStream := [], fault := none }).emitted ∧
    (createZonemap block_size sizeof_T sizeof_Zone num_rows col).fault =
      (createZonemapLoop num_rows (block_size / sizeof_T) col num_rows 0 0
        (Block.new block_size sizeof_T)
        { emitted := [], write_block := Block.new block_size sizeof_Zone, blk_ptr := 0,
          zoneOutStream := [], fault := none }).fault := by
  unfold createZonemap
  simp only
  split <;> simp

/-- The zones `createZonemap` emits for a column of `num_rows` records, when
the zone write buffer has at least one slot. -/
theorem createZonemap_emitted_spec {α : Type} [Inhabited α]
    (block_size sizeof_T sizeof_Zone : Nat) (col : List α)
    (hc : 1 ≤ block_size / sizeof_T) (hzc : 1 ≤ block_size / sizeof_Zone) :
    (createZonemap block_size sizeof_T sizeof_Zone col.length col).fault = none ∧
    (createZonemap block_size sizeof_T sizeof_Zone col.length col).emitted.length
      = (col.length + block_size / sizeof_T - 1) / (block_size / sizeof_T) ∧
    ∀ k, k < (createZonemap block_size sizeof_T sizeof_Zone col.length col).emitted.length →
      ∃ lo hi, col[k * (block_size / sizeof_T)]? = some lo ∧
        col[min ((k + 1) * (block_size / sizeof_T)) col.length - 1]? = some hi ∧
        (createZonemap block_size sizeof_T sizeof_Zone col.length col).emitted[k]?
          = some ⟨k, lo, hi⟩ := by
  obtain ⟨he, hf⟩ := createZonemap_emitted_eq block_size sizeof_T sizeof_Zone col.length col
  obtain ⟨hfault, l, hl, hlen, hall⟩ := createZonemapLoop_spec (block_size / sizeof_T) col hc
    col.length 0 0 (Block.new block_size sizeof_T)
    { emitted := [], write_block := Block.new block_size sizeof_Zone, blk_ptr := 0,
      zoneOutStream := [], fault := none } rfl (by simp) (by simp) rfl hzc
  rw [he, hf, hl]
  simp only [List.nil_append]
  refine ⟨hfault, by rw [hlen]; rfl, ?_⟩
  intro k hk
  obtain ⟨lo, hi, h1, h2, h3⟩ := hall k hk
  simp only [Nat.zero_add] at h1 h2 h3
  exact ⟨lo, hi, h1, h2, h3⟩

/-! ## Phase 1 as a filter -/

/-- The indices of the zones that pass the zone test, in increasing order. -/
theorem pruneLoop_eq_filter {α : Type} (preds : List (PredicateRange α))
    (zones : List (Zone α)) :
    pruneLoop preds zones 0 [] =
      (List.range zones.length).filter fun i =>
        match zones[i]? with
        | some z => preds.any fun pp => pp.1.evaluate_expr z.min && pp.2.evaluate_expr z.max
        | none => false := by
  have hs1 : (pruneLoop preds zones 0 []).Sorted (· < ·) :=
    pruneLoop_sorted preds zones 0 [] List.sorted_nil (by simp)
  have hs2 : ((List.range zones.length).filter fun i =>
        match zones[i]? with
        | some z => preds.any fun pp => pp.1.evaluate_expr z.min && pp.2.evaluate_expr z.max
        | none => false).Sorted (· < ·) :=
    List.Pairwise.filter _ (List.sorted_lt_range zones.length)
  refine List.eq_of_perm_of_sorted ?_ hs1 hs2
  rw [List.perm_ext_iff_of_nodup hs1.nodup hs2.nodup]
  intro k
  rw [mem_pruneLoop, List.mem_filter, List.mem_range]
  constructor
  · rintro (h | ⟨z, _, hz, hq⟩)
    · simp at h
    · rw [Nat.sub_zero] at hz
      refine ⟨(List.getElem?_eq_some.1 hz).1, ?_⟩
      rw [hz]
      simpa [zone_qualifies_eq_any] using hq
  · rintro ⟨hk, hq⟩
    right
    refine ⟨zones[k], Nat.zero_le _, by rw [Nat.sub_zero]; exact List.getElem?_eq_getElem hk, ?_⟩
    rw [List.getElem?_eq_getElem hk] at hq
    simpa [zone_qualifies_eq_any] using hq

/-! ## `process_filter` and the state before its final flush -/

theorem process_filter_eq {α : Type} [Inhabited α] (zones : List (Zone α))
    (block_size sizeof_T sizeof_position : Nat) (data_file : List α)
    (preds : List (PredicateRange α)) :
    process_filter zones block_size sizeof_T sizeof_position data_file preds =
      if (scanState zones block_size sizeof_T sizeof_position data_file preds).fault.isNone &&
          decide (0 < (scanState zones block_size sizeof_T sizeof_position data_file
            preds).num_qualified_tuples) then
        { scanState zones block_size sizeof_T sizeof_position data_file preds with
          position_output_file :=
            (scanState zones block_size sizeof_T sizeof_position data_file
              preds).qualified_positions_block.write_data
              (scanState zones block_size sizeof_T sizeof_position data_file
                preds).position_output_file
              (scanState zones block_size sizeof_T sizeof_position data_file
                preds).num_qualified_tuples
          num_qualified_tuples := 0
          qualified_positions_block :=
            (scanState zones block_size sizeof_T sizeof_position data_file
              preds).qualified_positions_block.clear }
      else scanState zones block_size sizeof_T sizeof_position data_file preds := rfl

theorem process_filter_frame {α : Type} [Inhabited α] (zones : List (Zone α))
    (block_size sizeof_T sizeof_position : Nat) (data_file : List α)
    (preds : List (PredicateRange α)) :
    (process_filter zones block_size sizeof_T sizeof_position data_file preds).pushed
      = (scanState zones block_size sizeof_T sizeof_position data_file preds).pushed ∧
    (process_filter zones block_size sizeof_T sizeof_position data_file preds).fault
      = (scanState zones block_size sizeof_T sizeof_position data_file preds).fault ∧
    (process_filter zones block_size sizeof_T sizeof_position data_file preds).reads
      = (scanState zones block_size sizeof_T sizeof_position data_file preds).reads ∧
    (process_filter zones block_size sizeof_T sizeof_position data_file preds).num_data_ios
      = (scanState zones block_size sizeof_T sizeof_position data_file preds).num_data_ios := by
  rw [process_filter_eq]
  split <;> exact ⟨rfl, rfl, rfl, rfl⟩

/-! ## Phase 2: what is pushed is a record that a range accepts -/

theorem predLoop_pushed_accepts {α : Type} (value : α) (position : Nat) :
    ∀ (preds : List (PredicateRange α)) (st : FilterRun),
      ∃ m, (predLoop value position preds st).pushed
          = st.pushed ++ List.replicate m position ∧
        (accepts_value preds value = false → m = 0) := by
  intro preds
  induction preds with
  | nil => intro st; exact ⟨0, by simp [predLoop], fun _ => rfl⟩
  | cons pp rest ih =>
    intro st
    rw [predLoop]
    by_cases hc : (pp.1.evaluate_expr value && pp.2.evaluate_expr value) = true
    · rw [if_pos hc]
      obtain ⟨m, hm, _⟩ := ih (pushPosition st position)
      refine ⟨m + 1, ?_, ?_⟩
      · rw [hm, pushPosition_pushed, List.append_assoc, List.replicate_succ]
        rfl
      · intro h
        simp only [accepts_value, List.any_cons, hc, Bool.true_or] at h
        exact absurd h (by simp)
    · rw [if_neg hc]
      obtain ⟨m, hm, hz⟩ := ih st
      refine ⟨m, hm, ?_⟩
      intro h
      apply hz
      simp only [accepts_value, List.any_cons, Bool.or_eq_false_iff] at h
      exact h.2

theorem recordLoop_pushed_sound {α : Type} (preds : List (PredicateRange α)) (data : List α)
    (start : Nat) :
    ∀ (left data_index : Nat) (st : FilterRun),
      ∃ l, (recordLoop preds data start left data_index st).pushed = st.pushed ++ l ∧
        ∀ x ∈ l, ∃ off v, off < data_index + left ∧ x = start + off ∧
          data[off]? = some v ∧ accepts_value preds v = true := by
  intro left
  induction left with
  | zero => intro di st; exact ⟨[], by simp [recordLoop]⟩
  | succ left ih =>
    intro di st
    rw [recordLoop]
    split
    · exact ⟨[], by simp⟩
    · rename_i value hv
      obtain ⟨m, hm, hz⟩ := predLoop_pushed_accepts value (start + di) preds st
      obtain ⟨l, hl, hb⟩ := ih (di + 1) (predLoop value (start + di) preds st)
      refine ⟨List.replicate m (start + di) ++ l, ?_, ?_⟩
      · rw [hl, hm, List.append_assoc]
      · intro x hx
        rw [List.mem_append] at hx
        rcases hx with hx | hx
        · have hne : m ≠ 0 := by
            intro h0; rw [h0] at hx; simp at hx
          have hacc : accepts_value preds value = true := by
            cases h : accepts_value preds value with
            | true => rfl
            | false => exact absurd (hz h) hne
          exact ⟨di, value, by omega, List.eq_of_mem_replicate hx, hv, hacc⟩
        · obtain ⟨off, v, h1, h2, h3, h4⟩ := hb x hx
          exact ⟨off, v, by omega, h2, h3, h4⟩

/-- Every position pushed by the loop over the candidate blocks is the
position `q * c + off` of a record of a candidate block `q`, and that record
is accepted by some range. -/
theorem blockLoop_pushed_sound {α : Type} (preds : List (PredicateRange α))
    (data_file : List α) :
    ∀ (qs : List Nat) (db : Block α) (st : FilterRun),
      ∃ l, (blockLoop preds data_file qs db st).pushed = st.pushed ++ l ∧
        ∀ x ∈ l, ∃ q ∈ qs, ∃ off v, off < db.num_elements ∧ x = q * db.num_elements + off ∧
          data_file[x]? = some v ∧ accepts_value preds v = true := by
  intro qs
  induction qs with
  | nil => intro db st; exact ⟨[], by simp [blockLoop]⟩
  | cons q rest ih =>
    intro db st
    obtain ⟨l1, hl1, hb1⟩ := recordLoop_pushed_sound preds
      ((data_file.drop (q * db.num_elements)).take db.num_elements) (q * db.num_elements)
      db.num_elements 0 (countRead st (q * db.num_elements) true)
    rw [countRead_pushed] at hl1
    have hb1 : ∀ x ∈ l1, ∃ q1 ∈ q :: rest, ∃ off v, off < db.num_elements ∧
        x = q1 * db.num_elements + off ∧ data_file[x]? = some v ∧
        accepts_value preds v = true := by
      intro x hx
      obtain ⟨off, v, h1, h2, h3, h4⟩ := hb1 x hx
      rw [List.getElem?_take, List.getElem?_drop] at h3
      refine ⟨q, List.mem_cons_self _ _, off, v, by omega, h2, ?_, h4⟩
      rw [if_pos (by omega)] at h3
      rw [h2]; exact h3
    rw [blockLoop_cons]
    split
    · exact ⟨[], by simp [countRead], by simp⟩
    · split
      · exact ⟨l1, hl1, hb1⟩
      · obtain ⟨l2, hl2, hb2⟩ := ih (db.read_data data_file (q * db.num_elements)).1
          (recordLoop preds ((data_file.drop (q * db.num_elements)).take db.num_elements)
            (q * db.num_elements) db.num_elements 0 (countRead st (q * db.num_elements) true))
        rw [read_data_num_elements] at hb2
        refine ⟨l1 ++ l2, by rw [hl2, hl1, List.append_assoc], ?_⟩
        intro x hx
        rw [List.mem_append] at hx
        rcases hx with hx | hx
        · exact hb1 x hx
        · obtain ⟨q1, hq1, h⟩ := hb2 x hx
          exact ⟨q1, List.mem_cons_of_mem _ hq1, h⟩

/-! ## Phase 2: full blocks are scanned without fault -/

theorem recordLoop_fault_of_full {α : Type} (preds : List (PredicateRange α)) (data : List α)
    (start : Nat) :
    ∀ (left data_index : Nat) (st : FilterRun), data_index + left ≤ data.length →
      (recordLoop preds data start left data_index st).fault = st.fault := by
  intro left
  induction left with
  | zero => intro di st _; simp [recordLoop]
  | succ left ih =>
    intro di st h
    rw [recordLoop]
    split
    · rename_i hnone
      rw [List.getElem?_eq_none_iff] at hnone
      omega
    · rw [ih _ _ (by omega), (predLoop_frame _ _ _ _).2.2.2]

theorem blockLoop_fault_of_full {α : Type} (preds : List (PredicateRange α))
    (data_file : List α) :
    ∀ (qs : List Nat) (db : Block α) (st : FilterRun),
      (∀ q ∈ qs, (q + 1) * db.num_elements ≤ data_file.length) →
      (blockLoop preds data_file qs db st).fault = st.fault := by
  intro qs
  induction qs with
  | nil => intro db st _; simp [blockLoop]
  | cons q rest ih =>
    intro db st hfull
    have hq := hfull q (List.mem_cons_self _ _)
    rw [Nat.add_mul, Nat.one_mul] at hq
    have hrec : (recordLoop preds ((data_file.drop (q * db.num_elements)).take db.num_elements)
        (q * db.num_elements) db.num_elements 0
        (countRead st (q * db.num_elements) true)).fault = st.fault := by
      rw [recordLoop_fault_of_full]
      · rfl
      · rw [List.length_take, List.length_drop]; omega
    rw [blockLoop_cons]
    split
    · rfl
    · split
      · exact hrec
      · rw [ih (db.read_data data_file (q * db.num_elements)).1 _
          (fun q1 hq1 => hfull q1 (List.mem_cons_of_mem _ hq1)), hrec]

/-! ## Phase 2: properties of the position buffer kept by every step -/

theorem predLoop_preserves {α : Type} (P : FilterRun → Prop)
    (hpush : ∀ st p, P st → P (pushPosition st p)) (value : α) (position : Nat) :
    ∀ (preds : List (PredicateRange α)) (st : FilterRun), P st →
      P (predLoop value position preds st) := by
  intro preds
  induction preds with
  | nil => intro st h; simpa [predLoop] using h
  | cons pp rest ih =>
    intro st h
    rw [predLoop]
    by_cases hc : (pp.1.evaluate_expr value && pp.2.evaluate_expr value) = true
    · rw [if_pos hc]; exact ih _ (hpush st position h)
    · rw [if_neg hc]; exact ih st h

theorem recordLoop_preserves {α : Type} (P : FilterRun → Prop)
    (hpush : ∀ st p, P st → P (pushPosition st p))
    (hfault : ∀ (st : FilterRun) f, P st → P { st with fault := f })
    (preds : List (PredicateRange α)) (data : List α) (start : Nat) :
    ∀ (left data_index : Nat) (st : FilterRun), P st →
      P (recordLoop preds data start left data_index st) := by
  intro left
  induction left with
  | zero => intro di st h; simpa [recordLoop] using h
  | succ left ih =>
    intro di st h
    rw [recordLoop]
    split
    · exact hfault st _ h
    · exact ih _ _ (predLoop_preserves P hpush _ _ preds st h)

theorem blockLoop_preserves {α : Type} (P : FilterRun → Prop)
    (hpush : ∀ st p, P st → P (pushPosition st p))
    (hfault : ∀ (st : FilterRun) f, P st → P { st with fault := f })
    (hcount : ∀ st s b, P st → P (countRead st s b))
    (preds : List (PredicateRange α)) (data_file : List α) :
    ∀ (qs : List Nat) (db : Block α) (st : FilterRun), P st →
      P (blockLoop preds data_file qs db st) := by
  intro qs
  induction qs with
  | nil => intro db st h; simpa [blockLoop] using h
  | cons q rest ih =>
    intro db st h
    rw [blockLoop_cons]
    split
    · exact hcount _ _ _ h
    · split
      · exact recordLoop_preserves P hpush hfault _ _ _ _ _ _ (hcount _ _ _ h)
      · exact ih _ _ (recordLoop_preserves P hpush hfault _ _ _ _ _ _ (hcount _ _ _ h))

theorem scanState_inv {α : Type} [Inhabited α] (zones : List (Zone α))
    (block_size sizeof_T sizeof_position : Nat) (data_file : List α)
    (preds : List (PredicateRange α)) :
    BufInv (scanState zones block_size sizeof_T sizeof_position data_file preds) :=
  blockLoop_inv preds data_file _ _ _ (BufInv_new block_size sizeof_position _)

/-- Before the final flush the position buffer still has the capacity it was
built with, and only whole buffers have been written to the output file. -/
theorem scanState_flushes {α : Type} [Inhabited α] (zones : List (Zone α))
    (block_size sizeof_T sizeof_position : Nat) (data_file : List α)
    (preds : List (PredicateRange α)) :
    (scanState zones block_size sizeof_T sizeof_position data_file
      preds).qualified_positions_block.num_elements = block_size / sizeof_position ∧
    block_size / sizeof_position ∣
      (scanState zones block_size sizeof_T sizeof_position data_file
        preds).position_output_file.length := by
  have h := blockLoop_preserves
    (fun st => st.qualified_positions_block.num_elements = block_size / sizeof_position ∧
      st.qualified_positions_block.block_data.length = block_size / sizeof_position ∧
      block_size / sizeof_position ∣ st.position_output_file.length)
    (by
      intro st p ⟨h1, h2, h3⟩
      unfold pushPosition
      simp only [Block.push_data, Block.is_full, Block.clear, Block.write_data]
      split
      · refine ⟨h1, by simpa using h2, ?_⟩
        simp only [List.length_append, List.length_take, List.length_set, h1, h2,
          Nat.min_self]
        exact Dvd.dvd.add h3 (dvd_refl _)
      · exact ⟨h1, by simpa using h2, h3⟩)
    (fun _ _ h => h) (fun _ _ _ h => h) preds data_file (pruneLoop preds zones 0 [])
    (Block.new block_size sizeof_T : Block α)
    { qualified_block_indices := pruneLoop preds zones 0 [], reads := [], num_data_ios := 0,
      pushed := [], qualified_positions_block := Block.new block_size sizeof_position,
      num_qualified_tuples := 0, position_output_file := [], fault := none }
    ⟨rfl, by simp [Block.new], by simp⟩
  exact ⟨h.1, h.2.2⟩

/-- With a position buffer of at least one slot, the run that ends without
fault has written exactly the positions pushed. -/
theorem process_filter_output_eq {α : Type} [Inhabited α] (zones : List (Zone α))
    (block_size sizeof_T sizeof_position : Nat) (data_file : List α)
    (preds : List (PredicateRange α)) (hpc : 1 ≤ block_size / sizeof_position)
    (hfault : (process_filter zones block_size sizeof_T sizeof_position data_file
      preds).fault = none) :
    (process_filter zones block_size sizeof_T sizeof_position data_file
        preds).position_output_file =
      (process_filter zones block_size sizeof_T sizeof_position data_file preds).pushed := by
  obtain ⟨hlen, hcase⟩ := scanState_inv zones block_size sizeof_T sizeof_position data_file preds
  have hne := (scanState_flushes zones block_size sizeof_T sizeof_position data_file preds).1
  rw [(process_filter_frame _ _ _ _ _ _).2.1] at hfault
  rcases hcase with ⟨h0, _, _⟩ | ⟨hlt, hf⟩
  · omega
  · rw [process_filter_eq]
    split
    · exact hf
    · rename_i hcond
      rw [hfault] at hcond
      simp only [Option.isNone_none, Bool.true_and, decide_eq_true_eq, Nat.pos_iff_ne_zero,
        ne_eq, Decidable.not_not] at hcond
      rw [hcond] at hf
      simpa using hf

/-! ## Phase 2: the reads and the I/O counter -/

/-- A candidate block whose read returns no records ends the loop: the
candidates after it do not matter. -/
theorem blockLoop_stop_at_empty_read {α : Type} (preds : List (PredicateRange α))
    (data_file : List α) (q : Nat) (post : List Nat) :
    ∀ (pre : List Nat) (db : Block α) (st : FilterRun),
      (data_file.drop (q * db.num_elements)).take db.num_elements = [] →
      blockLoop preds data_file (pre ++ q :: post) db st
        = blockLoop preds data_file (pre ++ [q]) db st := by
  intro pre
  induction pre with
  | nil =>
    intro db st h
    rw [List.nil_append, List.nil_append, blockLoop_cons, blockLoop_cons, h]
    simp
  | cons p pre ih =>
    intro db st h
    rw [List.cons_append, List.cons_append, blockLoop_cons, blockLoop_cons,
      ih (db.read_data data_file (p * db.num_elements)).1 _ h]

/-- When the loop over the candidate blocks ends in a fault, every read it
made returned records. -/
theorem blockLoop_reads_of_fault {α : Type} (preds : List (PredicateRange α))
    (data_file : List α) :
    ∀ (qs : List Nat) (db : Block α) (st : FilterRun), st.fault = none →
      (blockLoop preds data_file qs db st).fault ≠ none →
      ∀ s ∈ (blockLoop preds data_file qs db st).reads,
        s ∈ st.reads ∨ (data_file.drop s).take db.num_elements ≠ [] := by
  intro qs
  induction qs with
  | nil => intro db st h0 hne; exact absurd h0 (by simpa [blockLoop] using hne)
  | cons q rest ih =>
    intro db st h0 hne s hs
    rw [blockLoop_cons] at hne hs
    split at hs
    · rename_i hempty
      rw [if_pos hempty] at hne
      exact absurd h0 hne
    · rename_i hnonempty
      have hq : (data_file.drop (q * db.num_elements)).take db.num_elements ≠ [] := by
        intro h; rw [h] at hnonempty; exact hnonempty rfl
      have key : s ∈ (countRead st (q * db.num_elements) true).reads →
          s ∈ st.reads ∨ (data_file.drop s).take db.num_elements ≠ [] := by
        intro h
        simp only [countRead, List.mem_append, List.mem_singleton] at h
        rcases h with h | h
        · exact Or.inl h
        · right; rw [h]; exact hq
      rw [if_neg hnonempty] at hne
      split at hs
      · rw [(recordLoop_frame _ _ _ _ _ _).1] at hs
        exact key hs
      · rename_i hsome
        rw [if_neg hsome] at hne
        have hnone : (recordLoop preds
            ((data_file.drop (q * db.num_elements)).take db.num_elements)
            (q * db.num_elements) db.num_elements 0
            (countRead st (q * db.num_elements) true)).fault = none := by
          cases hf : (recordLoop preds
            ((data_file.drop (q * db.num_elements)).take db.num_elements)
            (q * db.num_elements) db.num_elements 0
            (countRead st (q * db.num_elements) true)).fault with
          | none => rfl
          | some f => rw [hf] at hsome; exact absurd rfl hsome
        rcases ih _ _ hnone hne s hs with h | h
        · rw [(recordLoop_frame _ _ _ _ _ _).1] at h
          exact key h
        · exact Or.inr h

/-- The I/O counter counts the reads that returned records. -/
theorem blockLoop_ios_count {α : Type} (preds : List (PredicateRange α))
    (data_file : List α) (c : Nat) :
    ∀ (qs : List Nat) (db : Block α) (st : FilterRun), db.num_elements = c →
      st.num_data_ios
        = (st.reads.filter fun s => !((data_file.drop s).take c).isEmpty).length →
      (blockLoop preds data_file qs db st).num_data_ios
        = ((blockLoop preds data_file qs db st).reads.filter
            fun s => !((data_file.drop s).take c).isEmpty).length := by
  intro qs
  induction qs with
  | nil => intro db st _ h; simpa [blockLoop] using h
  | cons q rest ih =>
    intro db st hc h
    subst hc
    rw [blockLoop_cons]
    have hfalse : (data_file.drop (q * db.num_elements)).take db.num_elements = [] →
        (countRead st (q * db.num_elements) false).num_data_ios
          = ((countRead st (q * db.num_elements) false).reads.filter
              fun s => !((data_file.drop s).take db.num_elements).isEmpty).length := by
      intro he
      simp [countRead, List.filter_append, he, h]
    have htrue : (data_file.drop (q * db.num_elements)).take db.num_elements ≠ [] →
        (countRead st (q * db.num_elements) true).num_data_ios
          = ((countRead st (q * db.num_elements) true).reads.filter
              fun s => !((data_file.drop s).take db.num_elements).isEmpty).length := by
      intro he
      have : (!((data_file.drop (q * db.num_elements)).take db.num_elements).isEmpty) = true := by
        cases hl : (data_file.drop (q * db.num_elements)).take db.num_elements with
        | nil => exact absurd hl he
        | cons _ _ => rfl
      simp [countRead, List.filter_append, this, h]
    split
    · rename_i hempty
      exact hfalse (List.length_eq_zero.1 hempty)
    · rename_i hnonempty
      have hq : (data_file.drop (q * db.num_elements)).take db.num_elements ≠ [] := by
        intro h; rw [h] at hnonempty; exact hnonempty rfl
      split
      · rw [(recordLoop_frame _ _ _ _ _ _).1, (recordLoop_frame _ _ _ _ _ _).2.1]
        exact htrue hq
      · apply ih (db.read_data data_file (q * db.num_elements)).1 _ rfl
        rw [(recordLoop_frame _ _ _ _ _ _).1, (recordLoop_frame _ _ _ _ _ _).2.1]
        exact htrue hq

theorem blockLoop_ios_le {α : Type} (preds : List (PredicateRange α)) (data_file : List α) :
    ∀ (qs : List Nat) (db : Block α) (st : FilterRun),
      (blockLoop preds data_file qs db st).num_data_ios ≤ st.num_data_ios + qs.length := by
  intro qs
  induction qs with
  | nil => intro db st; simp [blockLoop]
  | cons q rest ih =>
    intro db st
    rw [blockLoop_cons, List.length_cons]
    split
    · simp only [countRead]; simp
    · split
      · rw [(recordLoop_frame _ _ _ _ _ _).2.1]
        simp only [countRead]; simp
      · refine le_trans (ih _ _) ?_
        rw [(recordLoop_frame _ _ _ _ _ _).2.1]
        simp only [countRead]; simp; omega

/-- When every candidate block has a record in the data file, every candidate
block is read and counted. -/
theorem blockLoop_ios_within {α : Type} (preds : List (PredicateRange α))
    (data_file : List α) :
    ∀ (qs : List Nat) (db : Block α) (st : FilterRun), qs.Sorted (· < ·) →
      (∀ q ∈ qs, ∃ p, q * db.num_elements ≤ p ∧ p < (q + 1) * db.num_elements ∧
        p < data_file.length) →
      st.fault = none →
      (blockLoop preds data_file qs db st).num_data_ios = st.num_data_ios + qs.length := by
  intro qs
  induction qs with
  | nil => intro db st _ _ _; simp [blockLoop]
  | cons q rest ih =>
    intro db st hs hin h0
    have hq1 : ∀ q1 ∈ rest, q < q1 := List.rel_of_sorted_cons hs
    have hs2 : rest.Sorted (· < ·) := List.Sorted.of_cons hs
    obtain ⟨p, hp1, hp2, hp3⟩ := hin q (List.mem_cons_self _ _)
    rw [Nat.add_mul, Nat.one_mul] at hp2
    have hlen : ((data_file.drop (q * db.num_elements)).take db.num_elements).length ≠ 0 := by
      rw [List.length_take, List.length_drop]; omega
    have hios : (recordLoop preds ((data_file.drop (q * db.num_elements)).take db.num_elements)
        (q * db.num_elements) db.num_elements 0
        (countRead st (q * db.num_elements) true)).num_data_ios = st.num_data_ios + 1 := by
      rw [(recordLoop_frame _ _ _ _ _ _).2.1]; rfl
    rw [blockLoop_cons, if_neg hlen, List.length_cons]
    cases rest with
    | nil =>
      split
      · rw [hios]; rfl
      · rw [blockLoop, hios]; rfl
    | cons q1 rest1 =>
      obtain ⟨p1, hp11, _, hp13⟩ := hin q1 (by simp)
      have hlt : (q + 1) * db.num_elements ≤ q1 * db.num_elements :=
        Nat.mul_le_mul_right _ (hq1 q1 (List.mem_cons_self _ _))
      rw [Nat.add_mul, Nat.one_mul] at hlt
      have hfault : (recordLoop preds
          ((data_file.drop (q * db.num_elements)).take db.num_elements)
          (q * db.num_elements) db.num_elements 0
          (countRead st (q * db.num_elements) true)).fault = none := by
        rw [recordLoop_fault_of_full]
        · exact h0
        · rw [List.length_take, List.length_drop]; omega
      rw [if_neg (by rw [hfault]; simp),
        ih (db.read_data data_file (q * db.num_elements)).1 _ hs2
          (fun q2 hq2 => hin q2 (List.mem_cons_of_mem _ hq2)) hfault, hios, List.length_cons]
      omega

/-! ## The zone file and its loading -/

theorem bufferZone_inv {α : Type} (st : ZonemapRun α) (zone : Zone α) (h : ZoneBufInv st) :
    ZoneBufInv (bufferZone st zone) := by
  obtain ⟨hlen, hlt, hf⟩ := h
  unfold bufferZone
  simp only [Block.push_data, Block.is_full, Block.clear, Block.write_data, decide_eq_true_eq]
  split
  · refine ⟨by simpa using hlen, by simp only; omega, ?_⟩
    simp only [List.take_zero, List.append_nil]
    rw [take_succ_set _ _ _ (by omega), ← List.append_assoc, hf]
  · refine ⟨by simpa using hlen, by simp only; omega, ?_⟩
    simp only
    rw [take_succ_set _ _ _ (by omega), ← List.append_assoc, hf]

theorem createZonemapLoop_inv {α : Type} (num_rows c : Nat) (col : List α) :
    ∀ (fuel pos bi : Nat) (rb : Block α) (st : ZonemapRun α), ZoneBufInv st →
      ZoneBufInv (createZonemapLoop num_rows c col fuel pos bi rb st) := by
  intro fuel
  induction fuel with
  | zero =>
    intro pos bi rb st h
    rw [createZonemapLoop]
    split
    · exact h
    · exact h
  | succ fuel ih =>
    intro pos bi rb st h
    rw [createZonemapLoop]
    split
    · simp only
      split
      · split
        · exact ih _ _ _ _ (bufferZone_inv st _ h)
        · exact h
      · exact h
    · exact h

/-- With a zone buffer of at least one slot, a run of `createZonemap` that
ends without fault has written exactly the zones it emitted. -/
theorem createZonemap_file_eq {α : Type} [Inhabited α]
    (block_size sizeof_T sizeof_Zone num_rows : Nat) (col : List α)
    (hzc : 1 ≤ block_size / sizeof_Zone)
    (hfault : (createZonemap block_size sizeof_T sizeof_Zone num_rows col).fault = none) :
    (createZonemap block_size sizeof_T sizeof_Zone num_rows col).zoneOutStream
      = (createZonemap block_size sizeof_T sizeof_Zone num_rows col).emitted := by
  have hinv := createZonemapLoop_inv num_rows (block_size / sizeof_T) col num_rows 0 0
    (Block.new block_size sizeof_T)
    { emitted := [], write_block := Block.new block_size sizeof_Zone, blk_ptr := 0,
      zoneOutStream := [], fault := none }
    ⟨by simp [Block.new], hzc, rfl⟩
  obtain ⟨_, _, hf⟩ := hinv
  rw [(createZonemap_emitted_eq _ _ _ _ _).2] at hfault
  unfold createZonemap
  simp only
  split
  · exact hf
  · rename_i hcond
    rw [hfault] at hcond
    simp only [Option.isNone_none, Bool.true_and, bne_iff_ne, ne_eq, Decidable.not_not] at hcond
    rw [hcond] at hf
    simpa using hf

/-- The zones emitted by the loop of `createZonemap` carry their own position
in the emitted sequence as block index. -/
theorem createZonemapLoop_block_index {α : Type} (num_rows c : Nat) (col : List α) :
    ∀ (fuel pos bi : Nat) (rb : Block α) (st : ZonemapRun α), st.emitted.length = bi →
      (∀ (k : Nat) (z : Zone α), st.emitted[k]? = some z → z.block_index = k) →
      ∀ (k : Nat) (z : Zone α),
        (createZonemapLoop num_rows c col fuel pos bi rb st).emitted[k]? = some z →
        z.block_index = k := by
  intro fuel
  induction fuel with
  | zero =>
    intro pos bi rb st _ h
    rw [createZonemapLoop]
    split
    · exact h
    · exact h
  | succ fuel ih =>
    intro pos bi rb st hlen h
    rw [createZonemapLoop]
    split
    · simp only
      split
      · rename_i year1 year2 _ _
        split
        swap
        · exact h
        apply ih
        · rw [(bufferZone_emitted _ _).1, List.length_append, hlen]; rfl
        · intro k z hk
          rw [(bufferZone_emitted _ _).1] at hk
          by_cases hkb : k < bi
          · rw [List.getElem?_append_left (by omega)] at hk
            exact h k z hk
          · rw [List.getElem?_append_right (by omega), hlen] at hk
            have hk0 : k - bi = 0 := by
              by_contra hne
              rw [List.getElem?_eq_none (by simp; omega)] at hk
              exact absurd hk (by simp)
            rw [hk0] at hk
            simp only [List.getElem?_cons_zero, Option.some.injEq] at hk
            rw [← hk]; simp only; omega
      · exact h
    · exact h

theorem drop_eq_take_append_drop {α : Type} (l : List α) (p c : Nat) :
    l.drop p = (l.drop p).take c ++ l.drop (p + ((l.drop p).take c).length) := by
  conv_lhs => rw [← List.take_append_drop c (l.drop p)]
  congr 1
  rw [List.drop_drop, List.length_take, List.length_drop]
  by_cases hm : c ≤ l.length - p
  · rw [Nat.min_eq_left hm]
  · rw [Nat.min_eq_right (by omega), List.drop_of_length_le (by omega),
      List.drop_of_length_le (by omega)]

theorem loadZonesLoop_spec {α : Type} (zc : Nat) (hzc : 1 ≤ zc) :
    ∀ (fuel : Nat) (blk : Block (Zone α)) (stream : InStream (Zone α)) (zones : List (Zone α)),
      blk.num_elements = zc → stream.position ≤ stream.records.length →
      stream.records.length < fuel + stream.position →
      (stream.good = false → stream.position = stream.records.length) →
      loadZonesLoop fuel blk stream zones
        = some (zones ++ stream.records.drop stream.position) := by
  intro fuel
  induction fuel with
  | zero => intro blk stream zones _ h1 h2 _; omega
  | succ fuel ih =>
    intro blk stream zones hblk hle hfuel hgood
    rw [loadZonesLoop]
    by_cases hg : stream.good = true
    · rw [if_pos hg]
      simp only [Block.read_next_block, hblk]
      cases hrec : (stream.records.drop stream.position).take zc with
      | nil =>
        have hdrop : stream.records.drop stream.position = [] := by
          cases hd : stream.records.drop stream.position with
          | nil => rfl
          | cons x xs =>
            rw [hd] at hrec
            obtain ⟨n, rfl⟩ : ∃ n, zc = n + 1 := ⟨zc - 1, by omega⟩
            simp at hrec
        simp [hdrop]
      | cons x xs =>
        have hlen : (x :: xs).length = min zc (stream.records.length - stream.position) := by
          rw [← hrec, List.length_take, List.length_drop]
        have hpos : 1 ≤ (x :: xs).length := by simp
        simp only [List.isEmpty_cons, Bool.not_false, Bool.not_true, Bool.false_eq_true,
          if_false]
        rw [ih _ _ _ rfl (by simp only; omega) (by simp only; omega)]
        · have hsplit := drop_eq_take_append_drop stream.records stream.position zc
          rw [hrec] at hsplit
          simp only
          rw [List.append_assoc, ← hsplit]
        · intro hfalse
          simp only [hg, Bool.true_and, decide_eq_false_iff_not] at hfalse
          simp only; omega
    · rw [if_neg hg]
      have := hgood (by simpa using hg)
      rw [this, List.drop_length, List.append_nil]

/-- With a zone buffer of at least one slot the constructor loads the whole
zone-map file, in order. -/
theorem ZonemapFilter_new_eq {α : Type} [Inhabited α] (zonemap_file : List (Zone α))
    (block_size sizeof_Zone : Nat) (hzc : 1 ≤ block_size / sizeof_Zone) :
    ZonemapFilter.new zonemap_file block_size sizeof_Zone
      = some { block_size := block_size, zones := zonemap_file } := by
  unfold ZonemapFilter.new
  rw [loadZonesLoop_spec (block_size / sizeof_Zone) hzc _ _ _ _ rfl (Nat.zero_le _)
    (by simp) (by simp)]
  simp

/-! ## The scan with `int` start positions -/

theorem int_mul_of_lt (a b : Nat) (h : a * b < 2 ^ 31) : int_mul a b = some (a * b) := by
  have h2 : a * b < 2 ^ 32 := by omega
  rw [int_mul, Nat.mod_eq_of_lt h2, if_pos h]

/-- One iteration of `blockLoop32` whose start position is not negative. -/
theorem blockLoop32_cons {α : Type} (preds : List (PredicateRange α)) (data_file : List α)
    (q s : Nat) (rest : List Nat) (db : Block α) (st : FilterRun)
    (hs : int_mul q db.num_elements = some s) :
    blockLoop32 preds data_file (q :: rest) db st =
      if ((data_file.drop s).take db.num_elements).length = 0 then
        countRead st s false
      else
        if (recordLoop preds ((data_file.drop s).take db.num_elements) s db.num_elements 0
            (countRead st s true)).fault.isSome then
          recordLoop preds ((data_file.drop s).take db.num_elements) s db.num_elements 0
            (countRead st s true)
        else
          blockLoop32 preds data_file rest (db.read_data data_file s).1
            (recordLoop preds ((data_file.drop s).take db.num_elements) s db.num_elements 0
              (countRead st s true)) := by
  rw [blockLoop32, hs]
  simp only [Block.read_data, Nat.sub_self, Nat.sub_zero]
  by_cases h : ((data_file.drop s).take db.num_elements).length = 0
  · rw [if_pos h, if_pos h]
    rw [List.length_eq_zero] at h
    rw [h]; rfl
  · rw [if_neg h, if_neg h]
    have : (!((data_file.drop s).take db.num_elements).isEmpty) = true := by
      cases hl : (data_file.drop s).take db.num_elements with
      | nil => rw [hl] at h; simp at h
      | cons _ _ => rfl
    rw [this]

/-- When every start position fits an `int`, the loop with `int` start
positions is the loop with exact start positions. -/
theorem blockLoop32_eq {α : Type} (preds : List (PredicateRange α)) (data_file : List α) :
    ∀ (qs : List Nat) (db : Block α) (st : FilterRun),
      (∀ q ∈ qs, q * db.num_elements < 2 ^ 31) →
      blockLoop32 preds data_file qs db st = blockLoop preds data_file qs db st := by
  intro qs
  induction qs with
  | nil => intro db st _; rw [blockLoop32, blockLoop]
  | cons q rest ih =>
    intro db st h
    rw [blockLoop32_cons preds data_file q (q * db.num_elements) rest db st
        (int_mul_of_lt _ _ (h q (List.mem_cons_self _ _))),
      blockLoop_cons,
      ih (db.read_data data_file (q * db.num_elements)).1 _
        (fun q1 hq1 => h q1 (List.mem_cons_of_mem _ hq1))]

theorem blockLoop32_candidates {α : Type} (preds : List (PredicateRange α))
    (data_file : List α) :
    ∀ (qs : List Nat) (db : Block α) (st : FilterRun),
      (blockLoop32 preds data_file qs db st).qualified_block_indices
        = st.qualified_block_indices := by
  intro qs
  induction qs with
  | nil => intro db st; rw [blockLoop32]
  | cons q rest ih =>
    intro db st
    cases hs : int_mul q db.num_elements with
    | none => rw [blockLoop32, hs]
    | some s =>
      rw [blockLoop32_cons preds data_file q s rest db st hs]
      split
      · rfl
      · split
        · rw [(recordLoop_frame _ _ _ _ _ _).2.2]; rfl
        · rw [ih, (recordLoop_frame _ _ _ _ _ _).2.2]; rfl

theorem process_filter32_candidates {α : Type} [Inhabited α] (zones : List (Zone α))
    (block_size sizeof_T sizeof_position : Nat) (data_file : List α)
    (preds : List (PredicateRange α)) :
    (process_filter32 zones block_size sizeof_T sizeof_position data_file
      preds).qualified_block_indices = pruneLoop preds zones 0 [] := by
  unfold process_filter32
  simp only
  split
  · simp only [blockLoop32_candidates]
  · simp only [blockLoop32_candidates]

/-- When every block start position computed at line 117 fits an `int`,
`process_filter32` is `process_filter`. -/
theorem process_filter32_eq {α : Type} [Inhabited α] (zones : List (Zone α))
    (block_size sizeof_T sizeof_position : Nat) (data_file : List α)
    (preds : List (PredicateRange α))
    (hfit : ∀ q ∈ (process_filter32 zones block_size sizeof_T sizeof_position data_file
      preds).qualified_block_indices, q * (block_size / sizeof_T) < 2 ^ 31) :
    process_filter32 zones block_size sizeof_T sizeof_position data_file preds
      = process_filter zones block_size sizeof_T sizeof_position data_file preds := by
  rw [process_filter32_candidates] at hfit
  unfold process_filter32 process_filter
  simp only
  rw [blockLoop32_eq preds data_file _ (Block.new block_size sizeof_T) _ hfit]

theorem process_filter32_frame {α : Type} [Inhabited α] (zones : List (Zone α))
    (block_size sizeof_T sizeof_position : Nat) (data_file : List α)
    (preds : List (PredicateRange α)) :
    (process_filter32 zones block_size sizeof_T sizeof_position data_file preds).pushed
      = (blockLoop32 preds data_file (pruneLoop preds zones 0 []) (Block.new block_size sizeof_T)
          { qualified_block_indices := pruneLoop preds zones 0 [], reads := [],
            num_data_ios := 0, pushed := [],
            qualified_positions_block := Block.new block_size sizeof_position,
            num_qualified_tuples := 0, position_output_file := [], fault := none }).pushed ∧
    (process_filter32 zones block_size sizeof_T sizeof_position data_file preds).fault
      = (blockLoop32 preds data_file (pruneLoop preds zones 0 []) (Block.new block_size sizeof_T)
          { qualified_block_indices := pruneLoop preds zones 0 [], reads := [],
            num_data_ios := 0, pushed := [],
            qualified_positions_block := Block.new block_size sizeof_position,
            num_qualified_tuples := 0, position_output_file := [], fault := none }).fault ∧
    (process_filter32 zones block_size sizeof_T sizeof_position data_file preds).reads
      = (blockLoop32 preds data_file (pruneLoop preds zones 0 []) (Block.new block_size sizeof_T)
          { qualified_block_indices := pruneLoop preds zones 0 [], reads := [],
            num_data_ios := 0, pushed := [],
            qualified_positions_block := Block.new block_size sizeof_position,
            num_qualified_tuples := 0, position_output_file := [], fault := none }).reads ∧
    (process_filter32 zones block_size sizeof_T sizeof_position data_file preds).num_data_ios
      = (blockLoop32 preds data_file (pruneLoop preds zones 0 []) (Block.new block_size sizeof_T)
          { qualified_block_indices := pruneLoop preds zones 0 [], reads := [],
            num_data_ios := 0, pushed := [],
            qualified_positions_block := Block.new block_size sizeof_position,
            num_qualified_tuples := 0, position_output_file := [],
            fault := none }).num_data_ios := by
  unfold process_filter32
  simp only
  split <;> exact ⟨rfl, rfl, rfl, rfl⟩

/-! ## Runs on records and zones that no range accepts -/

theorem predLoop_rejected {α : Type} (value : α) (position : Nat) :
    ∀ (preds : List (PredicateRange α)) (st : FilterRun),
      accepts_value preds value = false → predLoop value position preds st = st := by
  intro preds
  induction preds with
  | nil => intro st _; rw [predLoop]
  | cons pp rest ih =>
    intro st h
    simp only [accepts_value, List.any_cons, Bool.or_eq_false_iff] at h
    rw [predLoop, if_neg (by rw [h.1]; simp)]
    exact ih st h.2

theorem recordLoop_rejected {α : Type} (preds : List (PredicateRange α)) (data : List α)
    (start : Nat) :
    ∀ (left data_index : Nat) (st : FilterRun),
      (∀ i, data_index ≤ i → i < data_index + left →
        ∃ w, data[i]? = some w ∧ accepts_value preds w = false) →
      recordLoop preds data start left data_index st = st := by
  intro left
  induction left with
  | zero => intro di st _; rw [recordLoop]
  | succ left ih =>
    intro di st h
    obtain ⟨w, hw, hacc⟩ := h di (Nat.le_refl _) (by omega)
    rw [recordLoop, hw]
    simp only
    rw [predLoop_rejected w _ preds st hacc]
    exact ih (di + 1) st (fun i h1 h2 => h i (by omega) (by omega))

/-- The record loop on a block whose first record is the only one accepted. -/
theorem recordLoop_first_only {α : Type} (preds : List (PredicateRange α)) (data : List α)
    (start n : Nat) (st : FilterRun) (v : α) (hn : 0 < n) (h0 : data[0]? = some v)
    (hrest : ∀ i, 1 ≤ i → i < n → ∃ w, data[i]? = some w ∧ accepts_value preds w = false) :
    recordLoop preds data start n 0 st = predLoop v (start + 0) preds st := by
  obtain ⟨m, rfl⟩ : ∃ m, n = m + 1 := ⟨n - 1, by omega⟩
  rw [recordLoop, h0]
  simp only
  exact recordLoop_rejected preds data start m (0 + 1) _
    (fun i h1 h2 => hrest i (by omega) (by omega))

theorem pruneLoop_skip {α : Type} (preds : List (PredicateRange α)) (rest : List (Zone α)) :
    ∀ (zs : List (Zone α)) (b : Nat) (acc : List Nat),
      (∀ z ∈ zs, zone_qualifies z.min z.max preds = false) →
      pruneLoop preds (zs ++ rest) b acc = pruneLoop preds rest (b + zs.length) acc := by
  intro zs
  induction zs with
  | nil => intro b acc _; simp
  | cons z zs ih =>
    intro b acc h
    rw [List.cons_append, pruneLoop, h z (List.mem_cons_self _ _),
      ih (b + 1) _ (fun z1 hz1 => h z1 (List.mem_cons_of_mem _ hz1)), List.length_cons]
    simp only [Bool.false_eq_true, if_false]
    congr 1
    omega

/-- With exact start positions: a zone stored at its own block index, with
`min <= max` and disjoint from every range `(v >= a, v <= b)`, is no candidate,
and no read covers a position of its block. -/
theorem exact_scan_skips_disjoint_zone {α : Type} [LinearOrder α] [Inhabited α]
    (zones : List (Zone α)) (bounds : List (α × α))
    (block_size sizeof_T sizeof_position : Nat) (data_file : List α) (z : Zone α)
    (hz : zones[z.block_index]? = some z) (hmm : z.min ≤ z.max)
    (hdis : ∀ ab ∈ bounds, z.max < ab.1 ∨ ab.2 < z.min) :
    z.block_index ∉ (process_filter zones block_size sizeof_T sizeof_position data_file
      (intervalPreds bounds)).qualified_block_indices ∧
    ∀ s ∈ (process_filter zones block_size sizeof_T sizeof_position data_file
      (intervalPreds bounds)).reads,
      ∀ p, z.block_index * (block_size / sizeof_T) ≤ p →
        p < (z.block_index + 1) * (block_size / sizeof_T) →
        ¬ (s ≤ p ∧ p < s + block_size / sizeof_T) := by
  have hnot : z.block_index ∉ pruneLoop (intervalPreds bounds) zones 0 [] := by
    intro hmem
    rcases (mem_pruneLoop _ _ _ _ _).1 hmem with h | ⟨z1, _, hz1, hq⟩
    · simp at h
    · rw [Nat.sub_zero, hz] at hz1
      cases hz1
      rw [zone_qualifies_eq_any, List.any_eq_true] at hq
      obtain ⟨pp, hpp, hacc⟩ := hq
      obtain ⟨ab, hab, rfl⟩ := List.mem_map.1 hpp
      simp only [AtomicPredicate.ge, AtomicPredicate.le, Bool.and_eq_true,
        decide_eq_true_eq] at hacc
      rcases hdis ab hab with h | h
      · exact absurd (lt_of_le_of_lt (le_trans hacc.1 hmm) h) (lt_irrefl _)
      · exact absurd (lt_of_lt_of_le h (le_trans hmm hacc.2)) (lt_irrefl _)
  refine ⟨by rw [process_filter_candidates]; exact hnot, ?_⟩
  intro s hs p hlo hhi ⟨h1, h2⟩
  obtain ⟨q, hq, rfl⟩ := process_filter_reads _ _ _ _ _ _ s hs
  have hqlt : q < z.block_index + 1 :=
    Nat.lt_of_mul_lt_mul_right (lt_of_le_of_lt h1 hhi)
  have hzlt : z.block_index < q + 1 := by
    apply Nat.lt_of_mul_lt_mul_right (a := block_size / sizeof_T)
    rw [Nat.add_mul, Nat.one_mul]
    exact lt_of_le_of_lt hlo h2
  have : q = z.block_index := by omega
  exact hnot (this ▸ hq)

/-! ## The scan with `int` start positions: buffer and output -/

theorem blockLoop32_preserves {α : Type} (P : FilterRun → Prop)
    (hpush : ∀ st p, P st → P (pushPosition st p))
    (hfault : ∀ (st : FilterRun) f, P st → P { st with fault := f })
    (hcount : ∀ st s b, P st → P (countRead st s b))
    (preds : List (PredicateRange α)) (data_file : List α) :
    ∀ (qs : List Nat) (db : Block α) (st : FilterRun), P st →
      P (blockLoop32 preds data_file qs db st) := by
  intro qs
  induction qs with
  | nil => intro db st h; rw [blockLoop32]; exact h
  | cons q rest ih =>
    intro db st h
    cases hs : int_mul q db.num_elements with
    | none => rw [blockLoop32, hs]; exact h
    | some s =>
      rw [blockLoop32_cons preds data_file q s rest db st hs]
      split
      · exact hcount _ _ _ h
      · split
        · exact recordLoop_preserves P hpush hfault _ _ _ _ _ _ (hcount _ _ _ h)
        · exact ih _ _ (recordLoop_preserves P hpush hfault _ _ _ _ _ _ (hcount _ _ _ h))

theorem pushPosition_num_elements (st : FilterRun) (position : Nat) :
    (pushPosition st position).qualified_positions_block.num_elements
      = st.qualified_positions_block.num_elements := by
  unfold pushPosition
  simp only
  split <;> rfl

/-- With a position buffer of at least one slot, a run of `process_filter32`
that ends without fault has written exactly the positions pushed. -/
theorem process_filter32_output_eq {α : Type} [Inhabited α] (zones : List (Zone α))
    (block_size sizeof_T sizeof_position : Nat) (data_file : List α)
    (preds : List (PredicateRange α)) (hpc : 1 ≤ block_size / sizeof_position)
    (hfault : (process_filter32 zones block_size sizeof_T sizeof_position data_file
      preds).fault = none) :
    (process_filter32 zones block_size sizeof_T sizeof_position data_file
        preds).position_output_file =
      (process_filter32 zones block_size sizeof_T sizeof_position data_file preds).pushed := by
  have hinv := blockLoop32_preserves
    (fun st => BufInv st ∧
      st.qualified_positions_block.num_elements = block_size / sizeof_position)
    (fun st p h => ⟨pushPosition_inv st p h.1, by rw [pushPosition_num_elements]; exact h.2⟩)
    (fun _ _ h => h) (fun _ _ _ h => h) preds data_file (pruneLoop preds zones 0 [])
    (Block.new block_size sizeof_T : Block α)
    { qualified_block_indices := pruneLoop preds zones 0 [], reads := [], num_data_ios := 0,
      pushed := [], qualified_positions_block := Block.new block_size sizeof_position,
      num_qualified_tuples := 0, position_output_file := [], fault := none }
    ⟨BufInv_new block_size sizeof_position _, rfl⟩
  obtain ⟨⟨_, hcase⟩, hne⟩ := hinv
  rw [(process_filter32_frame _ _ _ _ _ _).2.1] at hfault
  rcases hcase with ⟨h0, _, _⟩ | ⟨hlt, hf⟩
  · omega
  · unfold process_filter32
    simp only
    split
    · exact hf
    · rename_i hcond
      rw [hfault] at hcond
      simp only [Option.isNone_none, Bool.true_and, decide_eq_true_eq, Nat.pos_iff_ne_zero,
        ne_eq, Decidable.not_not] at hcond
      rw [hcond] at hf
      simpa using hf

/-! ## Two runs whose start position leaves the range of `int` -/

theorem wideZoneMap_candidates :
    pruneLoop (intervalPreds [((5 : Int), (5 : Int))]) wideZoneMap 0 [] = [65536] := by
  unfold wideZoneMap
  rw [pruneLoop_skip, List.length_map, List.length_range]
  · decide
  · intro z hz
    obtain ⟨k, _, rfl⟩ := List.mem_map.1 hz
    show zone_qualifies (0 : Int) 0 _ = false
    decide

/-- The scan of a block of 65536 zeros for the zone map `wideZoneMap` and the
range `[5, 5]`: the only candidate is block 65536, whose start position
`65536 * 65536` is 0 as an `int`. -/
theorem wideZoneMap_run :
    (process_filter32 wideZoneMap 262144 4 4 (List.replicate 65536 (0 : Int))
      (intervalPreds [(5, 5)])).reads = [0] ∧
    (process_filter32 wideZoneMap 262144 4 4 (List.replicate 65536 (0 : Int))
      (intervalPreds [(5, 5)])).num_data_ios = 1 := by
  have hs : int_mul 65536 (Block.new 262144 4 : Block Int).num_elements = some 0 := by decide
  have hdata : ((List.replicate 65536 (0 : Int)).drop 0).take
      (Block.new 262144 4 : Block Int).num_elements = List.replicate 65536 0 := by
    show ((List.replicate 65536 (0 : Int)).drop 0).take (262144 / 4) = _
    rw [List.drop_zero, List.take_of_length_le (le_of_eq (List.length_replicate _ _))]
  have hrec : ∀ st : FilterRun, recordLoop (intervalPreds [((5 : Int), (5 : Int))])
      (List.replicate 65536 (0 : Int)) 0 (Block.new 262144 4 : Block Int).num_elements 0 st
      = st := by
    intro st
    apply recordLoop_rejected
    intro i _ hi
    have hi : i < 65536 := by
      have : (Block.new 262144 4 : Block Int).num_elements = 65536 := by decide
      omega
    exact ⟨0, by rw [List.getElem?_replicate, if_pos hi], by decide⟩
  rw [(process_filter32_frame _ _ _ _ _ _).2.2.1, (process_filter32_frame _ _ _ _ _ _).2.2.2,
    wideZoneMap_candidates, blockLoop32_cons _ _ _ 0 _ _ _ hs, hdata, hrec,
    if_neg (by rw [List.length_replicate]; decide), blockLoop32]
  exact ⟨rfl, rfl⟩

theorem wideZoneMapTwo_candidates :
    pruneLoop (intervalPreds [((5 : Int), (5 : Int))]) wideZoneMapTwo 0 [] = [1, 65536] := by
  unfold wideZoneMapTwo
  rw [pruneLoop, pruneLoop, pruneLoop_skip, List.length_map, List.length_range]
  · decide
  · intro z hz
    obtain ⟨k, _, rfl⟩ := List.mem_map.1 hz
    show zone_qualifies (0 : Int) 0 _ = false
    decide

theorem recordLoop_five_then_zeros (st : FilterRun) (start : Nat) :
    recordLoop (intervalPreds [((5 : Int), (5 : Int))]) (5 :: List.replicate 65535 0) start
      65536 0 st = pushPosition st (start + 0) := by
  rw [recordLoop_first_only _ _ _ _ _ 5 (by omega) List.getElem?_cons_zero]
  · show predLoop (5 : Int) (start + 0) [(AtomicPredicate.ge 5, AtomicPredicate.le 5)] st = _
    rw [predLoop, predLoop, if_pos (by decide)]
  · intro i h1 h2
    obtain ⟨j, rfl⟩ : ∃ j, i = j + 1 := ⟨i - 1, by omega⟩
    exact ⟨0, by rw [List.getElem?_cons_succ, List.getElem?_replicate, if_pos (by omega)],
      by decide⟩

/-- The scan of `twoBlockColumn` for the zone map `wideZoneMapTwo` and the
range `[5, 5]`: block 1 is read at position 65536, then block 65536 at the
`int` start position 0. -/
theorem wideZoneMapTwo_run :
    (process_filter32 wideZoneMapTwo 262144 4 4 twoBlockColumn
      (intervalPreds [(5, 5)])).pushed = [65536, 0] ∧
    (process_filter32 wideZoneMapTwo 262144 4 4 twoBlockColumn
      (intervalPreds [(5, 5)])).fault = none := by
  have hs1 : int_mul 1 (Block.new 262144 4 : Block Int).num_elements = some 65536 := by decide
  have hs2 : ∀ s, int_mul 65536
      ((Block.new 262144 4 : Block Int).read_data twoBlockColumn s).1.num_elements = some 0 :=
    fun _ => by show int_mul 65536 (262144 / 4) = some 0; decide
  have hdata1 : (twoBlockColumn.drop 65536).take
      (Block.new 262144 4 : Block Int).num_elements = 5 :: List.replicate 65535 0 := by
    show (twoBlockColumn.drop 65536).take (262144 / 4) = _
    unfold twoBlockColumn
    rw [List.drop_left' (by rw [List.length_cons, List.length_replicate]),
      List.take_of_length_le (by rw [List.length_cons, List.length_replicate])]
  have hdata2 : ∀ s, (twoBlockColumn.drop 0).take
      ((Block.new 262144 4 : Block Int).read_data twoBlockColumn s).1.num_elements
        = 5 :: List.replicate 65535 0 := by
    intro s
    show (twoBlockColumn.drop 0).take (262144 / 4) = _
    unfold twoBlockColumn
    rw [List.drop_zero, List.take_left' (by rw [List.length_cons, List.length_replicate])]
  have hc : (Block.new 262144 4 : Block Int).num_elements = 65536 := by decide
  have hc2 : ∀ s, ((Block.new 262144 4 : Block Int).read_data twoBlockColumn s).1.num_elements
      = 65536 := fun _ => by show 262144 / 4 = 65536; decide
  have hlen : ¬ ((5 : Int) :: List.replicate 65535 0).length = 0 := by
    rw [List.length_cons]; omega
  have hpush : ∀ (st : FilterRun) (p : Nat), st.fault = none →
      ¬ (pushPosition st p).fault.isSome = true := by
    intro st p h
    rw [(pushPosition_frame st p).2.2.2, h]; simp
  rw [(process_filter32_frame _ _ _ _ _ _).1, (process_filter32_frame _ _ _ _ _ _).2.1,
    wideZoneMapTwo_candidates, blockLoop32_cons _ _ _ 65536 _ _ _ hs1, hdata1, hc,
    recordLoop_five_then_zeros, if_neg hlen, if_neg (hpush _ _ rfl),
    blockLoop32_cons _ _ _ 0 _ _ _ (hs2 _), hdata2, hc2, recordLoop_five_then_zeros,
    if_neg hlen,
    if_neg (hpush _ _ (by
      show (pushPosition _ _).fault = none
      rw [(pushPosition_frame _ _).2.2.2]; rfl)), blockLoop32]
  refine ⟨?_, ?_⟩
  · rw [pushPosition_pushed, countRead_pushed, pushPosition_pushed]; rfl
  · rw [(pushPosition_frame _ _).2.2.2]
    show (pushPosition _ _).fault = none
    rw [(pushPosition_frame _ _).2.2.2]; rfl

/-! ## Phase 2: every accepted record of a full candidate block is pushed -/

/-- C2 (end-to-end example), refuted as stated.  For the column `[1..10]`
with five records per block (zones `(0,1,5)` and `(1,6,10)`) and the range
given as `(lower = '>= 7', upper = '<= 9')`, phase 1 of `process_filter`
selects no block at all: the first member is applied to the zone minimum
(`6 >= 7` fails), the second to the zone maximum.  No data block is read and
no position is written; the claim expects block 1, one read and the
positions 6, 7, 8. -/
theorem end_to_end_example_selects_nothing :
    (createZonemap 20 4 12 10 ([1, 2, 3, 4, 5, 6, 7, 8, 9, 10] : List Int)).zoneOutStream
      = [⟨0, 1, 5⟩, ⟨1, 6, 10⟩] ∧
    (process_filter32 [⟨0, 1, 5⟩, ⟨1, 6, 10⟩] 20 4 4 ([1, 2, 3, 4, 5, 6, 7, 8, 9, 10] : List Int)
      [(AtomicPredicate.ge 7, AtomicPredicate.le 9)]).qualified_block_indices = [] ∧
    (process_filter32 [⟨0, 1, 5⟩, ⟨1, 6, 10⟩] 20 4 4 ([1, 2, 3, 4, 5, 6, 7, 8, 9, 10] : List Int)
      [(AtomicPredicate.ge 7, AtomicPredicate.le 9)]).num_data_ios = 0 ∧
    (process_filter32 [⟨0, 1, 5⟩, ⟨1, 6, 10⟩] 20 4 4 ([1, 2, 3, 4, 5, 6, 7, 8, 9, 10] : List Int)
      [(AtomicPredicate.ge 7, AtomicPredicate.le 9)]).position_output_file = [] ∧
    (process_filter32 [⟨0, 1, 5⟩, ⟨1, 6, 10⟩] 20 4 4 ([1, 2, 3, 4, 5, 6, 7, 8, 9, 10] : List Int)
      [(AtomicPredicate.ge 7, AtomicPredicate.le 9)]).fault = none := by
  decide

/-- C2 (end-to-end example), amended.  For the sorted column `[1..10]` with
block capacity 5 (zones `(0,1,5)` and `(1,6,10)`) and the single predicate
range `7 <= v <= 9` given as the pair `('<= 9', '>= 7')`, whose first member
the zone test applies to the zone minimum and whose second member to the zone
maximum, phase 1 of `process_filter` selects exactly block index 1, and phase
2 reads that one block (at position 5) and writes exactly the positions 6, 7,
8 with a data-read count of exactly 1. -/
theorem end_to_end_example :
    (createZonemap 20 4 12 10 ([1, 2, 3, 4, 5, 6, 7, 8, 9, 10] : List Int)).zoneOutStream
      = [⟨0, 1, 5⟩, ⟨1, 6, 10⟩] ∧
    (process_filter32 [⟨0, 1, 5⟩, ⟨1, 6, 10⟩] 20 4 4 ([1, 2, 3, 4, 5, 6, 7, 8, 9, 10] : List Int)
      [(AtomicPredicate.le 9, AtomicPredicate.ge 7)]).qualified_block_indices = [1] ∧
    (process_filter32 [⟨0, 1, 5⟩, ⟨1, 6, 10⟩] 20 4 4 ([1, 2, 3, 4, 5, 6, 7, 8, 9, 10] : List Int)
      [(AtomicPredicate.le 9, AtomicPredicate.ge 7)]).reads = [5] ∧
    (process_filter32 [⟨0, 1, 5⟩, ⟨1, 6, 10⟩] 20 4 4 ([1, 2, 3, 4, 5, 6, 7, 8, 9, 10] : List Int)
      [(AtomicPredicate.le 9, AtomicPredicate.ge 7)]).num_data_ios = 1 ∧
    (process_filter32 [⟨0, 1, 5⟩, ⟨1, 6, 10⟩] 20 4 4 ([1, 2, 3, 4, 5, 6, 7, 8, 9, 10] : List Int)
      [(AtomicPredicate.le 9, AtomicPredicate.ge 7)]).position_output_file = [6, 7, 8] ∧
    (process_filter32 [⟨0, 1, 5⟩, ⟨1, 6, 10⟩] 20 4 4 ([1, 2, 3, 4, 5, 6, 7, 8, 9, 10] : List Int)
      [(AtomicPredicate.le 9, AtomicPredicate.ge 7)]).fault = none := by
  decide

/-- C3 (disjunctive ranges example).  For the column `[1..10]` with five
records per block (zones `(0,1,5)` and `(1,6,10)`) and the two ranges
`(<= 2, always)` and `(always, >= 9)`, `process_filter` selects block 0 and
block 1, reads two data blocks (at the positions 0 and 5) and writes exactly
the positions 0, 1, 8, 9. -/
theorem disjunctive_ranges_example :
    (createZonemap 20 4 12 10 ([1, 2, 3, 4, 5, 6, 7, 8, 9, 10] : List Int)).zoneOutStream
      = [⟨0, 1, 5⟩, ⟨1, 6, 10⟩] ∧
    (process_filter [⟨0, 1, 5⟩, ⟨1, 6, 10⟩] 20 4 4 ([1, 2, 3, 4, 5, 6, 7, 8, 9, 10] : List Int)
      [(AtomicPredicate.le 2, AtomicPredicate.always),
       (AtomicPredicate.always, AtomicPredicate.ge 9)]).qualified_block_indices = [0, 1] ∧
    (process_filter [⟨0, 1, 5⟩, ⟨1, 6, 10⟩] 20 4 4 ([1, 2, 3, 4, 5, 6, 7, 8, 9, 10] : List Int)
      [(AtomicPredicate.le 2, AtomicPredicate.always),
       (AtomicPredicate.always, AtomicPredicate.ge 9)]).reads = [0, 5] ∧
    (process_filter [⟨0, 1, 5⟩, ⟨1, 6, 10⟩] 20 4 4 ([1, 2, 3, 4, 5, 6, 7, 8, 9, 10] : List Int)
      [(AtomicPredicate.le 2, AtomicPredicate.always),
       (AtomicPredicate.always, AtomicPredicate.ge 9)]).num_data_ios = 2 ∧
    (process_filter [⟨0, 1, 5⟩, ⟨1, 6, 10⟩] 20 4 4 ([1, 2, 3, 4, 5, 6, 7, 8, 9, 10] : List Int)
      [(AtomicPredicate.le 2, AtomicPredicate.always),
       (AtomicPredicate.always, AtomicPredicate.ge 9)]).position_output_file = [0, 1, 8, 9] ∧
    (process_filter [⟨0, 1, 5⟩, ⟨1, 6, 10⟩] 20 4 4 ([1, 2, 3, 4, 5, 6, 7, 8, 9, 10] : List Int)
      [(AtomicPredicate.le 2, AtomicPredicate.always),
       (AtomicPredicate.always, AtomicPredicate.ge 9)]).fault = none := by
  decide

/-- C4 (pruning effectiveness), refuted as stated.  The zone map
`wideZoneMap` has 65537 zones over blocks of 65536 records (block size 262144,
`int` records); the data file holds one block of zeros.  Zone 0 is `(0,0,0)`,
with `min <= max` and disjoint from the only range `[5, 5]`, but block 65536
is a candidate and its start position `65536 * 65536` is 0 in the `int` of
line 117: `process_filter` reads block 0 from the data file. -/
theorem wrapped_start_reads_disjoint_block :
    wideZoneMap[(⟨0, 0, 0⟩ : Zone Int).block_index]? = some ⟨0, 0, 0⟩ ∧
    (⟨0, 0, 0⟩ : Zone Int).min ≤ (⟨0, 0, 0⟩ : Zone Int).max ∧
    (∀ ab ∈ [((5 : Int), (5 : Int))],
      (⟨0, 0, 0⟩ : Zone Int).max < ab.1 ∨ ab.2 < (⟨0, 0, 0⟩ : Zone Int).min) ∧
    (process_filter32 wideZoneMap 262144 4 4 (List.replicate 65536 (0 : Int))
      (intervalPreds [(5, 5)])).reads = [0] ∧
    (process_filter32 wideZoneMap 262144 4 4 (List.replicate 65536 (0 : Int))
      (intervalPreds [(5, 5)])).num_data_ios = 1 ∧
    ¬ (∀ s ∈ (process_filter32 wideZoneMap 262144 4 4 (List.replicate 65536 (0 : Int))
        (intervalPreds [(5, 5)])).reads,
      ∀ p, (⟨0, 0, 0⟩ : Zone Int).block_index * (262144 / 4) ≤ p →
        p < ((⟨0, 0, 0⟩ : Zone Int).block_index + 1) * (262144 / 4) →
        ¬ (s ≤ p ∧ p < s + 262144 / 4)) := by
  refine ⟨?_, by decide, by decide, wideZoneMap_run.1, wideZoneMap_run.2, ?_⟩
  · show wideZoneMap[0]? = _
    unfold wideZoneMap
    rw [List.getElem?_append_left (by rw [List.length_map, List.length_range]; omega),
      List.getElem?_map, List.getElem?_range (by omega)]
    rfl
  · rw [wideZoneMap_run.1]
    intro h
    exact h 0 (List.mem_singleton.2 rfl) 0 (by decide) (by decide) ⟨by decide, by decide⟩

/-- C4 (pruning effectiveness), amended.  Let every block start position
computed at line 117 fit an `int` (`q * c < 2^31` for every candidate `q`),
let `z` be the zone the zone map stores for its block
(`zones[z.block_index] = z`), with `z.min <= z.max`, and let every range be
`(v >= a, v <= b)`.  If `[z.min, z.max]` is disjoint from every `[a, b]`
(`z.max < a` or `b < z.min`), then `z.block_index` is not among the candidate
blocks, and no read of `process_filter` covers a position of that block: with
`c` records per block, no start position `s` passed to `read_data` has
`s <= p < s + c` for a position `p` of block `z.block_index`. -/
theorem disjoint_zone_not_read {α : Type} [LinearOrder α] [Inhabited α]
    (zones : List (Zone α)) (bounds : List (α × α))
    (block_size sizeof_T sizeof_position : Nat) (data_file : List α) (z : Zone α)
    (hfit : ∀ q ∈ (process_filter32 zones block_size sizeof_T sizeof_position data_file
      (intervalPreds bounds)).qualified_block_indices, q * (block_size / sizeof_T) < 2 ^ 31)
    (hz : zones[z.block_index]? = some z) (hmm : z.min ≤ z.max)
    (hdis : ∀ ab ∈ bounds, z.max < ab.1 ∨ ab.2 < z.min) :
    z.block_index ∉ (process_filter32 zones block_size sizeof_T sizeof_position data_file
      (intervalPreds bounds)).qualified_block_indices ∧
    ∀ s ∈ (process_filter32 zones block_size sizeof_T sizeof_position data_file
      (intervalPreds bounds)).reads,
      ∀ p, z.block_index * (block_size / sizeof_T) ≤ p →
        p < (z.block_index + 1) * (block_size / sizeof_T) →
        ¬ (s ≤ p ∧ p < s + block_size / sizeof_T) := by
  rw [process_filter32_eq zones block_size sizeof_T sizeof_position data_file _ hfit]
  exact exact_scan_skips_disjoint_zone zones bounds block_size sizeof_T sizeof_position
    data_file z hz hmm hdis

/-- The zone `(0,1,5)` and the range `[6, 10]` on the column `[1..10]`: block 1
is read at position 5, block 0 is not; an instance of the amended C4. -/
theorem disjoint_zone_not_read_witness :
    (∀ q ∈ (process_filter32 [⟨0, 1, 5⟩, ⟨1, 6, 10⟩] 20 4 4
        ([1, 2, 3, 4, 5, 6, 7, 8, 9, 10] : List Int)
        (intervalPreds [(6, 10)])).qualified_block_indices, q * (20 / 4) < 2 ^ 31) ∧
    ([⟨0, 1, 5⟩, ⟨1, 6, 10⟩] : List (Zone Int))[(⟨0, 1, 5⟩ : Zone Int).block_index]?
      = some ⟨0, 1, 5⟩ ∧
    (⟨0, 1, 5⟩ : Zone Int).min ≤ (⟨0, 1, 5⟩ : Zone Int).max ∧
    (∀ ab ∈ [((6 : Int), (10 : Int))],
      (⟨0, 1, 5⟩ : Zone Int).max < ab.1 ∨ ab.2 < (⟨0, 1, 5⟩ : Zone Int).min) ∧
    (process_filter32 [⟨0, 1, 5⟩, ⟨1, 6, 10⟩] 20 4 4
      ([1, 2, 3, 4, 5, 6, 7, 8, 9, 10] : List Int) (intervalPreds [(6, 10)])).reads = [5] ∧
    ((⟨0, 1, 5⟩ : Zone Int).block_index ∉
      (process_filter32 [⟨0, 1, 5⟩, ⟨1, 6, 10⟩] 20 4 4
        ([1, 2, 3, 4, 5, 6, 7, 8, 9, 10] : List Int)
        (intervalPreds [(6, 10)])).qualified_block_indices ∧
     ∀ s ∈ (process_filter32 [⟨0, 1, 5⟩, ⟨1, 6, 10⟩] 20 4 4
        ([1, 2, 3, 4, 5, 6, 7, 8, 9, 10] : List Int) (intervalPreds [(6, 10)])).reads,
      ∀ p, (⟨0, 1, 5⟩ : Zone Int).block_index * (20 / 4) ≤ p →
        p < ((⟨0, 1, 5⟩ : Zone Int).block_index + 1) * (20 / 4) →
        ¬ (s ≤ p ∧ p < s + 20 / 4)) :=
  ⟨by decide, by decide, by decide, by decide, by decide,
    disjoint_zone_not_read [⟨0, 1, 5⟩, ⟨1, 6, 10⟩] [(6, 10)] 20 4 4
      [1, 2, 3, 4, 5, 6, 7, 8, 9, 10] ⟨0, 1, 5⟩ (by decide) (by decide) (by decide)
      (by decide)⟩

/-- C5 (zone soundness).  For a column sorted ascending whose length is the
configured row count and a block capacity `c = block_size / sizeof(T) >= 1`,
every zone `z` emitted by `createZonemap` has `z.min <= r <= z.max` for every
record `r = col[p]` of block `z.block_index`, that is for
`z.block_index * c <= p < min ((z.block_index + 1) * c) n`. -/
theorem createZonemap_zone_sound {α : Type} [LinearOrder α] [Inhabited α]
    (block_size sizeof_T sizeof_Zone num_rows : Nat) (col : List α)
    (hsorted : col.Sorted (· ≤ ·)) (hrows : col.length = num_rows)
    (hc : 1 ≤ block_size / sizeof_T) :
    ∀ z ∈ (createZonemap block_size sizeof_T sizeof_Zone num_rows col).emitted,
      ∀ (p : Nat) (r : α), z.block_index * (block_size / sizeof_T) ≤ p →
        p < min ((z.block_index + 1) * (block_size / sizeof_T)) col.length →
        col[p]? = some r → z.min ≤ r ∧ r ≤ z.max := by
  subst hrows
  intro z hzmem p r hlo hhi hr
  rw [(createZonemap_emitted_eq _ _ _ _ _).1] at hzmem
  obtain ⟨h1, h2⟩ := createZonemapLoop_emitted_chunk (block_size / sizeof_T) col hc
    col.length 0 0 (Block.new block_size sizeof_T)
    { emitted := [], write_block := Block.new block_size sizeof_Zone, blk_ptr := 0,
      zoneOutStream := [], fault := none } rfl (by simp) (by simp) z hzmem
  exact ⟨sorted_getElem?_le col hsorted _ _ _ _ hlo h1 hr,
    sorted_getElem?_le col hsorted _ _ _ _ (by omega) hr h2⟩

/-- The column `[1..5]` with three records per block: an instance of C5. -/
theorem createZonemap_zone_sound_witness :
    ([1, 2, 3, 4, 5] : List Int).Sorted (· ≤ ·) ∧
    ([1, 2, 3, 4, 5] : List Int).length = 5 ∧ 1 ≤ 12 / 4 ∧
    ∀ z ∈ (createZonemap 12 4 12 5 ([1, 2, 3, 4, 5] : List Int)).emitted,
      ∀ (p : Nat) (r : Int), z.block_index * (12 / 4) ≤ p →
        p < min ((z.block_index + 1) * (12 / 4)) ([1, 2, 3, 4, 5] : List Int).length →
        ([1, 2, 3, 4, 5] : List Int)[p]? = some r → z.min ≤ r ∧ r ≤ z.max :=
  ⟨by decide, rfl, by decide,
    createZonemap_zone_sound 12 4 12 5 [1, 2, 3, 4, 5] (by decide) rfl (by decide)⟩

/-- C6 (zone construction result), refuted as stated.  Block size 8 with a
4-byte record and a 12-byte zone gives a block capacity `c = 2 >= 1`, but a
zone write buffer without any slot.  For the column `[1,2,3]` (3 rows
configured) the claim expects `ceil(3 / 2) = 2` emitted zones; the first push
of line 43 is already outside the contract of `push_data`, so the run stops
there: no zone is emitted and the zone file stays empty. -/
theorem createZonemap_without_zone_slot :
    1 ≤ 8 / 4 ∧ ([1, 2, 3] : List Int).length = 3 ∧
    (([1, 2, 3] : List Int).length + 8 / 4 - 1) / (8 / 4) = 2 ∧
    (createZonemap 8 4 12 3 ([1, 2, 3] : List Int)).fault
      = some (Fault.push_out_of_capacity 0 0) ∧
    (createZonemap 8 4 12 3 ([1, 2, 3] : List Int)).emitted = [] ∧
    (createZonemap 8 4 12 3 ([1, 2, 3] : List Int)).zoneOutStream = [] := by
  decide

/-- C6 (zone construction result), amended.  For a column of `n` records, `n`
the configured row count, a block capacity `c = block_size / sizeof(T) >= 1`
and a zone write buffer of at least one slot
(`block_size / sizeof(Zone<T>) >= 1`), `createZonemap` runs to its end and
emits exactly `ceil(n / c)` zones; the `k`-th of them is
`Zone(k, col[k*c], col[min((k+1)*c, n) - 1])`, so a short final chunk is
summarised by the first and last of the records present. -/
theorem createZonemap_zones {α : Type} [Inhabited α]
    (block_size sizeof_T sizeof_Zone num_rows : Nat) (col : List α)
    (hrows : col.length = num_rows) (hc : 1 ≤ block_size / sizeof_T)
    (hzc : 1 ≤ block_size / sizeof_Zone) :
    (createZonemap block_size sizeof_T sizeof_Zone num_rows col).fault = none ∧
    (createZonemap block_size sizeof_T sizeof_Zone num_rows col).emitted.length
      = (col.length + block_size / sizeof_T - 1) / (block_size / sizeof_T) ∧
    ∀ k, k < (col.length + block_size / sizeof_T - 1) / (block_size / sizeof_T) →
      ∃ lo hi, col[k * (block_size / sizeof_T)]? = some lo ∧
        col[min ((k + 1) * (block_size / sizeof_T)) col.length - 1]? = some hi ∧
        (createZonemap block_size sizeof_T sizeof_Zone num_rows col).emitted[k]?
          = some ⟨k, lo, hi⟩ := by
  subst hrows
  obtain ⟨hf, hlen, hall⟩ :=
    createZonemap_emitted_spec block_size sizeof_T sizeof_Zone col hc hzc
  exact ⟨hf, hlen, fun k hk => hall k (hlen ▸ hk)⟩

/-- The column `[1..5]` with three records per block and one zone per zone
block: an instance of the amended C6. -/
theorem createZonemap_zones_witness :
    ([1, 2, 3, 4, 5] : List Int).length = 5 ∧ 1 ≤ 12 / 4 ∧ 1 ≤ 12 / 12 ∧
    ((createZonemap 12 4 12 5 ([1, 2, 3, 4, 5] : List Int)).fault = none ∧
     (createZonemap 12 4 12 5 ([1, 2, 3, 4, 5] : List Int)).emitted.length
       = (([1, 2, 3, 4, 5] : List Int).length + 12 / 4 - 1) / (12 / 4) ∧
     ∀ k, k < (([1, 2, 3, 4, 5] : List Int).length + 12 / 4 - 1) / (12 / 4) →
       ∃ lo hi, ([1, 2, 3, 4, 5] : List Int)[k * (12 / 4)]? = some lo ∧
         ([1, 2, 3, 4, 5] : List Int)[min ((k + 1) * (12 / 4))
           ([1, 2, 3, 4, 5] : List Int).length - 1]? = some hi ∧
         (createZonemap 12 4 12 5 ([1, 2, 3, 4, 5] : List Int)).emitted[k]?
           = some ⟨k, lo, hi⟩) :=
  ⟨rfl, by decide, by decide,
    createZonemap_zones 12 4 12 5 [1, 2, 3, 4, 5] rfl (by decide) (by decide)⟩

/-- C7 (boundary block in the scan phase), evaluated where it fails.  The
column `[1..7]` with three records per block has the short final block 2,
holding the single record 7.  For the range `(>= 7, <= 7)` that block is the
only candidate; its read returns one record, and the record loop, bounded by
`num_elements = 3`, goes on to `data[1]`, an index that is not smaller than
the number of records read. -/
theorem short_final_block_read_past_its_records :
    (createZonemap 12 4 12 7 ([1, 2, 3, 4, 5, 6, 7] : List Int)).zoneOutStream
      = [⟨0, 1, 3⟩, ⟨1, 4, 6⟩, ⟨2, 7, 7⟩] ∧
    (process_filter [⟨0, 1, 3⟩, ⟨1, 4, 6⟩, ⟨2, 7, 7⟩] 12 4 4 ([1, 2, 3, 4, 5, 6, 7] : List Int)
      [(AtomicPredicate.ge 7, AtomicPredicate.le 7)]).qualified_block_indices = [2] ∧
    (process_filter [⟨0, 1, 3⟩, ⟨1, 4, 6⟩, ⟨2, 7, 7⟩] 12 4 4 ([1, 2, 3, 4, 5, 6, 7] : List Int)
      [(AtomicPredicate.ge 7, AtomicPredicate.le 7)]).reads = [6] ∧
    (process_filter [⟨0, 1, 3⟩, ⟨1, 4, 6⟩, ⟨2, 7, 7⟩] 12 4 4 ([1, 2, 3, 4, 5, 6, 7] : List Int)
      [(AtomicPredicate.ge 7, AtomicPredicate.le 7)]).fault
      = some (Fault.data_index_out_of_range 6 1 1) := by
  decide

/-- C8 (zone construction stops at an empty read), evaluated where it fails.
The column file holds four records, the configured row count is 9 and a block
holds three records.  The chunk read at position 6 returns no record;
`createZonemap` does not look at what `read_data` returns and goes on to take
`front()` of the empty block instead of ending the loop. -/
theorem createZonemap_goes_on_after_empty_read :
    (createZonemap 12 4 12 9 ([1, 2, 3, 4] : List Int)).emitted
      = [⟨0, 1, 3⟩, ⟨1, 4, 4⟩] ∧
    (createZonemap 12 4 12 9 ([1, 2, 3, 4] : List Int)).fault
      = some (Fault.front_of_empty_block 6) := by
  decide

/-- C9 (each record is emitted at most once), evaluated where it fails.  For
the column `[1,2,3]` in one block and the overlapping ranges `(>= 1, <= 3)`
and `(>= 2, <= 3)`, the loop over the ranges has no `break`: the positions 1
and 2, whose records satisfy both ranges, are written twice. -/
theorem overlapping_ranges_write_a_position_twice :
    (process_filter [⟨0, 1, 3⟩] 12 4 4 ([1, 2, 3] : List Int)
      [(AtomicPredicate.ge 1, AtomicPredicate.le 3),
       (AtomicPredicate.ge 2, AtomicPredicate.le 3)]).position_output_file = [0, 1, 1, 2, 2] ∧
    ¬ (process_filter [⟨0, 1, 3⟩] 12 4 4 ([1, 2, 3] : List Int)
      [(AtomicPredicate.ge 1, AtomicPredicate.le 3),
       (AtomicPredicate.ge 2, AtomicPredicate.le 3)]).position_output_file.Nodup := by
  decide

/-- C10 (output order), refuted as stated.  For the zone map `wideZoneMapTwo`
(65537 zones over blocks of 65536 records) and the column `twoBlockColumn`,
the candidates are the blocks 1 and 65536.  Block 1 is read at position 65536
and its first record is written as position 65536; the start position of
block 65536 is `65536 * 65536`, which is 0 in the `int` of line 117, so block
0 is read next and position 0 is written after position 65536. -/
theorem wrapped_start_breaks_output_order :
    (process_filter32 wideZoneMapTwo 262144 4 4 twoBlockColumn
      (intervalPreds [(5, 5)])).position_output_file = [65536, 0] ∧
    ¬ (process_filter32 wideZoneMapTwo 262144 4 4 twoBlockColumn
      (intervalPreds [(5, 5)])).position_output_file.Sorted (· ≤ ·) := by
  have hout : (process_filter32 wideZoneMapTwo 262144 4 4 twoBlockColumn
      (intervalPreds [(5, 5)])).position_output_file = [65536, 0] := by
    rw [process_filter32_output_eq _ _ _ _ _ _ (by decide) wideZoneMapTwo_run.2]
    exact wideZoneMapTwo_run.1
  refine ⟨hout, ?_⟩
  rw [hout]
  decide

/-- C10 (output order), amended.  When every block start position computed
at line 117 fits an `int` (`q * c < 2^31` for every candidate `q`), then for
every zone map, column, block size and predicate set the positions
`process_filter` writes to the output file are in ascending order: each one
is greater than or equal to every one written before it. -/
theorem output_positions_ascending {α : Type} [Inhabited α] (zones : List (Zone α))
    (block_size sizeof_T sizeof_position : Nat) (data_file : List α)
    (preds : List (PredicateRange α))
    (hfit : ∀ q ∈ (process_filter32 zones block_size sizeof_T sizeof_position data_file
      preds).qualified_block_indices, q * (block_size / sizeof_T) < 2 ^ 31) :
    (process_filter32 zones block_size sizeof_T sizeof_position data_file
      preds).position_output_file.Sorted (· ≤ ·) := by
  rw [process_filter32_eq zones block_size sizeof_T sizeof_position data_file preds hfit]
  obtain ⟨hpre, hs⟩ := process_filter_output_initial zones block_size sizeof_T sizeof_position
    data_file preds
  exact List.Pairwise.sublist hpre.sublist hs

/-- The column `[1..10]` with five records per block and the ranges
`(<= 2, always)`, `(always, >= 9)`: the output is `[0, 1, 8, 9]`; an instance
of the amended C10. -/
theorem output_positions_ascending_witness :
    (∀ q ∈ (process_filter32 [⟨0, 1, 5⟩, ⟨1, 6, 10⟩] 20 4 4
        ([1, 2, 3, 4, 5, 6, 7, 8, 9, 10] : List Int)
        [(AtomicPredicate.le 2, AtomicPredicate.always),
         (AtomicPredicate.always, AtomicPredicate.ge 9)]).qualified_block_indices,
      q * (20 / 4) < 2 ^ 31) ∧
    (process_filter32 [⟨0, 1, 5⟩, ⟨1, 6, 10⟩] 20 4 4
        ([1, 2, 3, 4, 5, 6, 7, 8, 9, 10] : List Int)
        [(AtomicPredicate.le 2, AtomicPredicate.always),
         (AtomicPredicate.always, AtomicPredicate.ge 9)]).position_output_file
      = [0, 1, 8, 9] ∧
    (process_filter32 [⟨0, 1, 5⟩, ⟨1, 6, 10⟩] 20 4 4
        ([1, 2, 3, 4, 5, 6, 7, 8, 9, 10] : List Int)
        [(AtomicPredicate.le 2, AtomicPredicate.always),
         (AtomicPredicate.always, AtomicPredicate.ge 9)]).position_output_file.Sorted
      (· ≤ ·) :=
  ⟨by decide, by decide,
    output_positions_ascending [⟨0, 1, 5⟩, ⟨1, 6, 10⟩] 20 4 4 [1, 2, 3, 4, 5, 6, 7, 8, 9, 10]
      [(AtomicPredicate.le 2, AtomicPredicate.always),
       (AtomicPredicate.always, AtomicPredicate.ge 9)] (by decide)⟩

/-- C11 (phase 1 definition).  The candidate list of `process_filter` is the
list of the indices `i` of `0 .. zones.size()-1`, in their order, for which
some range of the predicate set has `lower(zones[i].min) && upper(zones[i].max)`;
it is strictly increasing and has no repetition, and an empty predicate set
gives an empty candidate list. -/
theorem phase1_candidates {α : Type} [Inhabited α] (zones : List (Zone α))
    (block_size sizeof_T sizeof_position : Nat) (data_file : List α)
    (preds : List (PredicateRange α)) :
    (process_filter zones block_size sizeof_T sizeof_position data_file
      preds).qualified_block_indices =
      ((List.range zones.length).filter fun i =>
        match zones[i]? with
        | some z => preds.any fun pp => pp.1.evaluate_expr z.min && pp.2.evaluate_expr z.max
        | none => false) ∧
    (process_filter zones block_size sizeof_T sizeof_position data_file
      preds).qualified_block_indices.Sorted (· < ·) ∧
    (process_filter zones block_size sizeof_T sizeof_position data_file
      preds).qualified_block_indices.Nodup ∧
    (process_filter zones block_size sizeof_T sizeof_position data_file
      []).qualified_block_indices = [] := by
  have hs : (pruneLoop preds zones 0 []).Sorted (· < ·) :=
    pruneLoop_sorted preds zones 0 [] List.sorted_nil (by simp)
  refine ⟨?_, ?_, ?_, ?_⟩
  · rw [process_filter_candidates, pruneLoop_eq_filter]
  · rw [process_filter_candidates]; exact hs
  · rw [process_filter_candidates]; exact hs.nodup
  · rw [process_filter_candidates, pruneLoop_eq_filter]
    apply List.filter_eq_nil_iff.2
    intro i _
    cases zones[i]? <;> simp

/-- C12 (no false positives, absolute positions).  When every candidate block
is a full block of the column (`(q + 1) * c <= n` for every candidate `q`,
with `c` records per block), `process_filter` ends without fault and every
position `p` it writes is `q * c + off` for a candidate `q` and an offset
`off < c`, is smaller than `n`, and its record `col[p]` satisfies
`lower(col[p]) && upper(col[p])` for some range of the predicate set. -/
theorem written_positions_sound {α : Type} [Inhabited α] (zones : List (Zone α))
    (block_size sizeof_T sizeof_position : Nat) (data_file : List α)
    (preds : List (PredicateRange α))
    (hfull : ∀ q ∈ (process_filter zones block_size sizeof_T sizeof_position data_file
      preds).qualified_block_indices, (q + 1) * (block_size / sizeof_T) ≤ data_file.length) :
    (process_filter zones block_size sizeof_T sizeof_position data_file preds).fault = none ∧
    ∀ p ∈ (process_filter zones block_size sizeof_T sizeof_position data_file
      preds).position_output_file,
      ∃ q ∈ (process_filter zones block_size sizeof_T sizeof_position data_file
        preds).qualified_block_indices,
      ∃ off, off < block_size / sizeof_T ∧ p = q * (block_size / sizeof_T) + off ∧
        p < data_file.length ∧
        ∃ v, data_file[p]? = some v ∧
          ∃ pp ∈ preds, pp.1.evaluate_expr v = true ∧ pp.2.evaluate_expr v = true := by
  rw [process_filter_candidates] at hfull
  constructor
  · rw [(process_filter_frame _ _ _ _ _ _).2.1]
    exact blockLoop_fault_of_full preds data_file _ (Block.new block_size sizeof_T) _ hfull
  · intro p hp
    have hpre := (process_filter_output_initial zones block_size sizeof_T sizeof_position
      data_file preds).1
    have hmem := hpre.subset hp
    rw [(process_filter_frame _ _ _ _ _ _).1] at hmem
    obtain ⟨l, hl, hb⟩ := blockLoop_pushed_sound preds data_file (pruneLoop preds zones 0 [])
      (Block.new block_size sizeof_T : Block α)
      { qualified_block_indices := pruneLoop preds zones 0 [], reads := [], num_data_ios := 0,
        pushed := [], qualified_positions_block := Block.new block_size sizeof_position,
        num_qualified_tuples := 0, position_output_file := [], fault := none }
    unfold scanState at hmem
    rw [hl, List.nil_append] at hmem
    obtain ⟨q, hq, off, v, hoff, hx, hv, hacc⟩ := hb p hmem
    rw [process_filter_candidates]
    refine ⟨q, hq, off, hoff, hx, (List.getElem?_eq_some.1 hv).1, v, hv, ?_⟩
    rw [accepts_value, List.any_eq_true] at hacc
    obtain ⟨pp, hpp, h⟩ := hacc
    rw [Bool.and_eq_true] at h
    exact ⟨pp, hpp, h.1, h.2⟩

/-- The column `[1..10]` with five records per block and the ranges
`(<= 2, always)`, `(always, >= 9)`: an instance of C12. -/
theorem written_positions_sound_witness :
    (∀ q ∈ (process_filter [⟨0, 1, 5⟩, ⟨1, 6, 10⟩] 20 4 4
        ([1, 2, 3, 4, 5, 6, 7, 8, 9, 10] : List Int)
        [(AtomicPredicate.le 2, AtomicPredicate.always),
         (AtomicPredicate.always, AtomicPredicate.ge 9)]).qualified_block_indices,
      (q + 1) * (20 / 4) ≤ ([1, 2, 3, 4, 5, 6, 7, 8, 9, 10] : List Int).length) ∧
    ((process_filter [⟨0, 1, 5⟩, ⟨1, 6, 10⟩] 20 4 4
        ([1, 2, 3, 4, 5, 6, 7, 8, 9, 10] : List Int)
        [(AtomicPredicate.le 2, AtomicPredicate.always),
         (AtomicPredicate.always, AtomicPredicate.ge 9)]).fault = none ∧
     ∀ p ∈ (process_filter [⟨0, 1, 5⟩, ⟨1, 6, 10⟩] 20 4 4
        ([1, 2, 3, 4, 5, 6, 7, 8, 9, 10] : List Int)
        [(AtomicPredicate.le 2, AtomicPredicate.always),
         (AtomicPredicate.always, AtomicPredicate.ge 9)]).position_output_file,
      ∃ q ∈ (process_filter [⟨0, 1, 5⟩, ⟨1, 6, 10⟩] 20 4 4
        ([1, 2, 3, 4, 5, 6, 7, 8, 9, 10] : List Int)
        [(AtomicPredicate.le 2, AtomicPredicate.always),
         (AtomicPredicate.always, AtomicPredicate.ge 9)]).qualified_block_indices,
      ∃ off, off < 20 / 4 ∧ p = q * (20 / 4) + off ∧
        p < ([1, 2, 3, 4, 5, 6, 7, 8, 9, 10] : List Int).length ∧
        ∃ v, ([1, 2, 3, 4, 5, 6, 7, 8, 9, 10] : List Int)[p]? = some v ∧
          ∃ pp ∈ [(AtomicPredicate.le 2, AtomicPredicate.always),
                  (AtomicPredicate.always, AtomicPredicate.ge (9 : Int))],
            pp.1.evaluate_expr v = true ∧ pp.2.evaluate_expr v = true) :=
  ⟨by decide,
    written_positions_sound [⟨0, 1, 5⟩, ⟨1, 6, 10⟩] 20 4 4 [1, 2, 3, 4, 5, 6, 7, 8, 9, 10]
      [(AtomicPredicate.le 2, AtomicPredicate.always),
       (AtomicPredicate.always, AtomicPredicate.ge 9)] (by decide)⟩

/-- C13 (an empty candidate block ends the scan).  Let `q` be a candidate
block, `pre` the candidates before it and `post` those after it, and let the
read of block `q` be made and return no records.  Then every read of
`process_filter` is the read of a block of `pre` or of `q` (no later
candidate block is read), every position pushed lies in a block of `pre` (no
record of `q` or of a later block is emitted), the run ends without fault,
and, the position buffer having at least one slot, all the positions pushed
for the blocks of `pre` are in the output file. -/
theorem empty_candidate_read_ends_scan {α : Type} [Inhabited α] (zones : List (Zone α))
    (block_size sizeof_T sizeof_position : Nat) (data_file : List α)
    (preds : List (PredicateRange α)) (pre post : List Nat) (q : Nat)
    (hcand : (process_filter zones block_size sizeof_T sizeof_position data_file
      preds).qualified_block_indices = pre ++ q :: post)
    (hempty : ((Block.new block_size sizeof_T : Block α).read_data data_file
      (q * (block_size / sizeof_T))).2 = false)
    (hread : q * (block_size / sizeof_T) ∈
      (process_filter zones block_size sizeof_T sizeof_position data_file preds).reads)
    (hpc : 1 ≤ block_size / sizeof_position) :
    (∀ s ∈ (process_filter zones block_size sizeof_T sizeof_position data_file preds).reads,
      ∃ q1 ∈ pre ++ [q], s = q1 * (block_size / sizeof_T)) ∧
    (∀ x ∈ (process_filter zones block_size sizeof_T sizeof_position data_file preds).pushed,
      ∃ q1 ∈ pre, q1 * (block_size / sizeof_T) ≤ x ∧
        x < q1 * (block_size / sizeof_T) + block_size / sizeof_T) ∧
    (process_filter zones block_size sizeof_T sizeof_position data_file preds).fault = none ∧
    (process_filter zones block_size sizeof_T sizeof_position data_file
      preds).position_output_file =
      (process_filter zones block_size sizeof_T sizeof_position data_file preds).pushed := by
  rw [process_filter_candidates] at hcand
  have hnil : (data_file.drop (q * (block_size / sizeof_T))).take (block_size / sizeof_T)
      = [] := by
    have h : (!((data_file.drop (q * (block_size / sizeof_T))).take
        (block_size / sizeof_T)).isEmpty) = false := hempty
    cases hl : (data_file.drop (q * (block_size / sizeof_T))).take (block_size / sizeof_T) with
    | nil => rfl
    | cons _ _ => rw [hl] at h; simp at h
  have hstate : scanState zones block_size sizeof_T sizeof_position data_file preds =
      blockLoop preds data_file (pre ++ [q]) (Block.new block_size sizeof_T)
        { qualified_block_indices := pre ++ q :: post, reads := [], num_data_ios := 0,
          pushed := [], qualified_positions_block := Block.new block_size sizeof_position,
          num_qualified_tuples := 0, position_output_file := [], fault := none } := by
    unfold scanState
    rw [hcand]
    exact blockLoop_stop_at_empty_read preds data_file q post pre _ _ hnil
  have hfault : (process_filter zones block_size sizeof_T sizeof_position data_file
      preds).fault = none := by
    by_contra hne
    rw [(process_filter_frame _ _ _ _ _ _).2.1, hstate] at hne
    rw [(process_filter_frame _ _ _ _ _ _).2.2.1, hstate] at hread
    rcases blockLoop_reads_of_fault preds data_file _ _ _ rfl hne _ hread with h | h
    · simp at h
    · exact h hnil
  refine ⟨?_, ?_, hfault, process_filter_output_eq _ _ _ _ _ _ hpc hfault⟩
  · intro s hs
    rw [(process_filter_frame _ _ _ _ _ _).2.2.1, hstate] at hs
    rcases blockLoop_reads preds data_file _ _ _ s hs with h | h
    · simp at h
    · exact h
  · intro x hx
    rw [(process_filter_frame _ _ _ _ _ _).1, hstate] at hx
    obtain ⟨l, hl, hb⟩ := blockLoop_pushed_sound preds data_file (pre ++ [q])
      (Block.new block_size sizeof_T : Block α)
      { qualified_block_indices := pre ++ q :: post, reads := [], num_data_ios := 0,
        pushed := [], qualified_positions_block := Block.new block_size sizeof_position,
        num_qualified_tuples := 0, position_output_file := [], fault := none }
    rw [hl, List.nil_append] at hx
    obtain ⟨q1, hq1, off, v, hoff, hxe, hv, _⟩ := hb x hx
    have hoff : off < block_size / sizeof_T := hoff
    have hxe : x = q1 * (block_size / sizeof_T) + off := hxe
    rw [List.mem_append, List.mem_singleton] at hq1
    rcases hq1 with hq1 | hq1
    · exact ⟨q1, hq1, by omega, by omega⟩
    · exfalso
      subst hq1
      have hlen := congrArg List.length hnil
      rw [List.length_take, List.length_drop, List.length_nil] at hlen
      have := (List.getElem?_eq_some.1 hv).1
      omega

/-- A zone map of three zones over a data file that holds one block only:
the read of the second candidate block returns no records; an instance of
C13. -/
theorem empty_candidate_read_ends_scan_witness :
    (process_filter [⟨0, 2, 4⟩, ⟨1, 2, 4⟩, ⟨2, 2, 4⟩] 20 4 4 ([1, 2, 3, 4, 5] : List Int)
      [(AtomicPredicate.ge 2, AtomicPredicate.le 4)]).qualified_block_indices
      = [0] ++ 1 :: [2] ∧
    ((Block.new 20 4 : Block Int).read_data [1, 2, 3, 4, 5] (1 * (20 / 4))).2 = false ∧
    1 * (20 / 4) ∈ (process_filter [⟨0, 2, 4⟩, ⟨1, 2, 4⟩, ⟨2, 2, 4⟩] 20 4 4
      ([1, 2, 3, 4, 5] : List Int) [(AtomicPredicate.ge 2, AtomicPredicate.le 4)]).reads ∧
    1 ≤ 20 / 4 ∧
    ((∀ s ∈ (process_filter [⟨0, 2, 4⟩, ⟨1, 2, 4⟩, ⟨2, 2, 4⟩] 20 4 4
        ([1, 2, 3, 4, 5] : List Int) [(AtomicPredicate.ge 2, AtomicPredicate.le 4)]).reads,
        ∃ q1 ∈ [0] ++ [1], s = q1 * (20 / 4)) ∧
     (∀ x ∈ (process_filter [⟨0, 2, 4⟩, ⟨1, 2, 4⟩, ⟨2, 2, 4⟩] 20 4 4
        ([1, 2, 3, 4, 5] : List Int) [(AtomicPredicate.ge 2, AtomicPredicate.le 4)]).pushed,
        ∃ q1 ∈ [0], q1 * (20 / 4) ≤ x ∧ x < q1 * (20 / 4) + 20 / 4) ∧
     (process_filter [⟨0, 2, 4⟩, ⟨1, 2, 4⟩, ⟨2, 2, 4⟩] 20 4 4
        ([1, 2, 3, 4, 5] : List Int) [(AtomicPredicate.ge 2, AtomicPredicate.le 4)]).fault
        = none ∧
     (process_filter [⟨0, 2, 4⟩, ⟨1, 2, 4⟩, ⟨2, 2, 4⟩] 20 4 4
        ([1, 2, 3, 4, 5] : List Int)
        [(AtomicPredicate.ge 2, AtomicPredicate.le 4)]).position_output_file =
       (process_filter [⟨0, 2, 4⟩, ⟨1, 2, 4⟩, ⟨2, 2, 4⟩] 20 4 4
        ([1, 2, 3, 4, 5] : List Int) [(AtomicPredicate.ge 2, AtomicPredicate.le 4)]).pushed) :=
  ⟨by decide, by decide, by decide, by decide,
    empty_candidate_read_ends_scan [⟨0, 2, 4⟩, ⟨1, 2, 4⟩, ⟨2, 2, 4⟩] 20 4 4 [1, 2, 3, 4, 5]
      [(AtomicPredicate.ge 2, AtomicPredicate.le 4)] [0] [2] 1
      (by decide) (by decide) (by decide) (by decide)⟩

/-- C14 (I/O count).  The data-read count of `process_filter` is the number
of reads that returned records; when every candidate block has a record in
the data file (some position `p < n` with `q * c <= p < (q + 1) * c`) it is
the length of the candidate list; and it never exceeds the number of zones. -/
theorem data_io_count {α : Type} [Inhabited α] (zones : List (Zone α))
    (block_size sizeof_T sizeof_position : Nat) (data_file : List α)
    (preds : List (PredicateRange α)) :
    (process_filter zones block_size sizeof_T sizeof_position data_file preds).num_data_ios
      = ((process_filter zones block_size sizeof_T sizeof_position data_file
          preds).reads.filter fun s =>
            ((Block.new block_size sizeof_T : Block α).read_data data_file s).2).length ∧
    ((∀ q ∈ (process_filter zones block_size sizeof_T sizeof_position data_file
        preds).qualified_block_indices,
        ∃ p, q * (block_size / sizeof_T) ≤ p ∧ p < (q + 1) * (block_size / sizeof_T) ∧
          p < data_file.length) →
      (process_filter zones block_size sizeof_T sizeof_position data_file preds).num_data_ios
        = (process_filter zones block_size sizeof_T sizeof_position data_file
            preds).qualified_block_indices.length) ∧
    (process_filter zones block_size sizeof_T sizeof_position data_file preds).num_data_ios
      ≤ zones.length := by
  refine ⟨?_, ?_, ?_⟩
  · rw [(process_filter_frame _ _ _ _ _ _).2.2.2, (process_filter_frame _ _ _ _ _ _).2.2.1]
    exact blockLoop_ios_count preds data_file (block_size / sizeof_T) _
      (Block.new block_size sizeof_T) _ rfl rfl
  · intro hin
    rw [process_filter_candidates] at hin ⊢
    rw [(process_filter_frame _ _ _ _ _ _).2.2.2]
    unfold scanState
    rw [blockLoop_ios_within preds data_file _ (Block.new block_size sizeof_T) _
      (pruneLoop_sorted preds zones 0 [] List.sorted_nil (by simp)) hin rfl]
    simp
  · rw [(process_filter_frame _ _ _ _ _ _).2.2.2]
    unfold scanState
    refine le_trans (blockLoop_ios_le preds data_file _ _ _) ?_
    rw [pruneLoop_eq_filter]
    simp only [Nat.zero_add]
    exact le_trans (List.length_filter_le _ _) (by simp)

/-- The column `[1..10]` with five records per block: both candidate blocks
lie in the data file and both are counted; an instance of C14. -/
theorem data_io_count_witness :
    (∀ q ∈ (process_filter [⟨0, 1, 5⟩, ⟨1, 6, 10⟩] 20 4 4
        ([1, 2, 3, 4, 5, 6, 7, 8, 9, 10] : List Int)
        [(AtomicPredicate.le 2, AtomicPredicate.always),
         (AtomicPredicate.always, AtomicPredicate.ge 9)]).qualified_block_indices,
      ∃ p, q * (20 / 4) ≤ p ∧ p < (q + 1) * (20 / 4) ∧
        p < ([1, 2, 3, 4, 5, 6, 7, 8, 9, 10] : List Int).length) ∧
    (process_filter [⟨0, 1, 5⟩, ⟨1, 6, 10⟩] 20 4 4
        ([1, 2, 3, 4, 5, 6, 7, 8, 9, 10] : List Int)
        [(AtomicPredicate.le 2, AtomicPredicate.always),
         (AtomicPredicate.always, AtomicPredicate.ge 9)]).num_data_ios
      = (process_filter [⟨0, 1, 5⟩, ⟨1, 6, 10⟩] 20 4 4
        ([1, 2, 3, 4, 5, 6, 7, 8, 9, 10] : List Int)
        [(AtomicPredicate.le 2, AtomicPredicate.always),
         (AtomicPredicate.always, AtomicPredicate.ge 9)]).qualified_block_indices.length :=
  have hin : ∀ q ∈ (process_filter [⟨0, 1, 5⟩, ⟨1, 6, 10⟩] 20 4 4
        ([1, 2, 3, 4, 5, 6, 7, 8, 9, 10] : List Int)
        [(AtomicPredicate.le 2, AtomicPredicate.always),
         (AtomicPredicate.always, AtomicPredicate.ge 9)]).qualified_block_indices,
      ∃ p, q * (20 / 4) ≤ p ∧ p < (q + 1) * (20 / 4) ∧
        p < ([1, 2, 3, 4, 5, 6, 7, 8, 9, 10] : List Int).length := by
    intro q hq
    have hq2 : q = 0 ∨ q = 1 := by
      have : (process_filter [⟨0, 1, 5⟩, ⟨1, 6, 10⟩] 20 4 4
        ([1, 2, 3, 4, 5, 6, 7, 8, 9, 10] : List Int)
        [(AtomicPredicate.le 2, AtomicPredicate.always),
         (AtomicPredicate.always, AtomicPredicate.ge 9)]).qualified_block_indices = [0, 1] := by
        decide
      rw [this] at hq
      simpa using hq
    rcases hq2 with rfl | rfl
    · exact ⟨0, by decide, by decide, by decide⟩
    · exact ⟨5, by decide, by decide, by decide⟩
  ⟨hin, (data_io_count [⟨0, 1, 5⟩, ⟨1, 6, 10⟩] 20 4 4 [1, 2, 3, 4, 5, 6, 7, 8, 9, 10]
      [(AtomicPredicate.le 2, AtomicPredicate.always),
       (AtomicPredicate.always, AtomicPredicate.ge 9)]).2.1 hin⟩

/-- C15 (zone map round trip).  For every column and every block size that
gives the zone buffer at least one slot, when `createZonemap` runs to its end
(no fault), the `ZonemapFilter` constructor, reading the file `createZonemap`
wrote, loads exactly the sequence of zones `createZonemap` emitted, in the
same order, and `zones[i].block_index == i` for every `i`. -/
theorem zone_map_round_trip {α : Type} [Inhabited α]
    (block_size sizeof_T sizeof_Zone num_rows : Nat) (col : List α)
    (hzc : 1 ≤ block_size / sizeof_Zone)
    (hfault : (createZonemap block_size sizeof_T sizeof_Zone num_rows col).fault = none) :
    ∃ zf : ZonemapFilter α,
      ZonemapFilter.new (createZonemap block_size sizeof_T sizeof_Zone num_rows col).zoneOutStream
        block_size sizeof_Zone = some zf ∧
      zf.zones = (createZonemap block_size sizeof_T sizeof_Zone num_rows col).emitted ∧
      ∀ (i : Nat) (z : Zone α), zf.zones[i]? = some z → z.block_index = i := by
  have hfile := createZonemap_file_eq block_size sizeof_T sizeof_Zone num_rows col hzc hfault
  refine ⟨_, ZonemapFilter_new_eq _ block_size sizeof_Zone hzc, hfile, ?_⟩
  intro i z hz
  simp only at hz
  rw [hfile, (createZonemap_emitted_eq _ _ _ _ _).1] at hz
  exact createZonemapLoop_block_index num_rows (block_size / sizeof_T) col num_rows 0 0
    (Block.new block_size sizeof_T)
    { emitted := [], write_block := Block.new block_size sizeof_Zone, blk_ptr := 0,
      zoneOutStream := [], fault := none } rfl
    (by intro k z hk; simp at hk) i z hz

/-- The column `[1..10]` with six records per block and two zones per zone
block: an instance of C15. -/
theorem zone_map_round_trip_witness :
    1 ≤ 24 / 12 ∧
    (createZonemap 24 4 12 10 ([1, 2, 3, 4, 5, 6, 7, 8, 9, 10] : List Int)).fault = none ∧
    ∃ zf : ZonemapFilter Int,
      ZonemapFilter.new
        (createZonemap 24 4 12 10 ([1, 2, 3, 4, 5, 6, 7, 8, 9, 10] : List Int)).zoneOutStream
        24 12 = some zf ∧
      zf.zones = (createZonemap 24 4 12 10 ([1, 2, 3, 4, 5, 6, 7, 8, 9, 10] : List Int)).emitted ∧
      ∀ (i : Nat) (z : Zone Int), zf.zones[i]? = some z → z.block_index = i :=
  ⟨by decide, by decide,
    zone_map_round_trip 24 4 12 10 [1, 2, 3, 4, 5, 6, 7, 8, 9, 10] (by decide) (by decide)⟩

/-- C16 (output buffering is transparent).  Let the position buffer have
`capacity = block_size / sizeof(position) >= 1` slots.  When the loop over the
candidate blocks has ended, only whole buffers have been written (the length
of the output file is a multiple of `capacity`), fewer than `capacity`
positions wait in the buffer, and the output file followed by these waiting
positions is the sequence of positions pushed, in order.  The final flush
writes the waiting positions: the output file of a run that ends without
fault is exactly the sequence of positions pushed, and the output file of
every run is an initial segment of it. -/
theorem output_buffering_transparent {α : Type} [Inhabited α] (zones : List (Zone α))
    (block_size sizeof_T sizeof_position : Nat) (data_file : List α)
    (preds : List (PredicateRange α)) (hpc : 1 ≤ block_size / sizeof_position) :
    block_size / sizeof_position ∣
      (scanState zones block_size sizeof_T sizeof_position data_file
        preds).position_output_file.length ∧
    (scanState zones block_size sizeof_T sizeof_position data_file preds).num_qualified_tuples
      < block_size / sizeof_position ∧
    (scanState zones block_size sizeof_T sizeof_position data_file preds).position_output_file ++
      (scanState zones block_size sizeof_T sizeof_position data_file
        preds).qualified_positions_block.block_data.take
        (scanState zones block_size sizeof_T sizeof_position data_file
          preds).num_qualified_tuples
      = (process_filter zones block_size sizeof_T sizeof_position data_file preds).pushed ∧
    ((process_filter zones block_size sizeof_T sizeof_position data_file preds).fault = none →
      (process_filter zones block_size sizeof_T sizeof_position data_file
        preds).position_output_file
        = (process_filter zones block_size sizeof_T sizeof_position data_file preds).pushed) ∧
    (process_filter zones block_size sizeof_T sizeof_position data_file
        preds).position_output_file <+:
      (process_filter zones block_size sizeof_T sizeof_position data_file preds).pushed := by
  obtain ⟨hne, hdvd⟩ := scanState_flushes zones block_size sizeof_T sizeof_position data_file
    preds
  obtain ⟨_, hcase⟩ := scanState_inv zones block_size sizeof_T sizeof_position data_file preds
  rw [hne] at hcase
  rcases hcase with ⟨h0, _, _⟩ | ⟨hlt, hf⟩
  · omega
  · refine ⟨hdvd, hlt, ?_, fun hfault => process_filter_output_eq _ _ _ _ _ _ hpc hfault,
      (process_filter_output_initial _ _ _ _ _ _).1⟩
    rw [(process_filter_frame _ _ _ _ _ _).1]
    exact hf

/-- The column `[1..10]` scanned whole with a position buffer of three slots
(three full flushes and a final flush of one position): an instance of C16. -/
theorem output_buffering_transparent_witness :
    1 ≤ 20 / 6 ∧
    (process_filter [⟨0, 1, 5⟩, ⟨1, 6, 10⟩] 20 4 6 ([1, 2, 3, 4, 5, 6, 7, 8, 9, 10] : List Int)
      [(AtomicPredicate.always, AtomicPredicate.always)]).position_output_file
      = [0, 1, 2, 3, 4, 5, 6, 7, 8, 9] ∧
    (20 / 6 ∣
      (scanState [⟨0, 1, 5⟩, ⟨1, 6, 10⟩] 20 4 6 ([1, 2, 3, 4, 5, 6, 7, 8, 9, 10] : List Int)
        [(AtomicPredicate.always, AtomicPredicate.always)]).position_output_file.length ∧
     (scanState [⟨0, 1, 5⟩, ⟨1, 6, 10⟩] 20 4 6 ([1, 2, 3, 4, 5, 6, 7, 8, 9, 10] : List Int)
        [(AtomicPredicate.always, AtomicPredicate.always)]).num_qualified_tuples < 20 / 6 ∧
     (scanState [⟨0, 1, 5⟩, ⟨1, 6, 10⟩] 20 4 6 ([1, 2, 3, 4, 5, 6, 7, 8, 9, 10] : List Int)
        [(AtomicPredicate.always, AtomicPredicate.always)]).position_output_file ++
       (scanState [⟨0, 1, 5⟩, ⟨1, 6, 10⟩] 20 4 6 ([1, 2, 3, 4, 5, 6, 7, 8, 9, 10] : List Int)
        [(AtomicPredicate.always, AtomicPredicate.always)]).qualified_positions_block.block_data.take
        (scanState [⟨0, 1, 5⟩, ⟨1, 6, 10⟩] 20 4 6 ([1, 2, 3, 4, 5, 6, 7, 8, 9, 10] : List Int)
          [(AtomicPredicate.always, AtomicPredicate.always)]).num_qualified_tuples
       = (process_filter [⟨0, 1, 5⟩, ⟨1, 6, 10⟩] 20 4 6
          ([1, 2, 3, 4, 5, 6, 7, 8, 9, 10] : List Int)
          [(AtomicPredicate.always, AtomicPredicate.always)]).pushed ∧
     ((process_filter [⟨0, 1, 5⟩, ⟨1, 6, 10⟩] 20 4 6
          ([1, 2, 3, 4, 5, 6, 7, 8, 9, 10] : List Int)
          [(AtomicPredicate.always, AtomicPredicate.always)]).fault = none →
       (process_filter [⟨0, 1, 5⟩, ⟨1, 6, 10⟩] 20 4 6
          ([1, 2, 3, 4, 5, 6, 7, 8, 9, 10] : List Int)
          [(AtomicPredicate.always, AtomicPredicate.always)]).position_output_file
         = (process_filter [⟨0, 1, 5⟩, ⟨1, 6, 10⟩] 20 4 6
          ([1, 2, 3, 4, 5, 6, 7, 8, 9, 10] : List Int)
          [(AtomicPredicate.always, AtomicPredicate.always)]).pushed) ∧
     (process_filter [⟨0, 1, 5⟩, ⟨1, 6, 10⟩] 20 4 6
          ([1, 2, 3, 4, 5, 6, 7, 8, 9, 10] : List Int)
          [(AtomicPredicate.always, AtomicPredicate.always)]).position_output_file <+:
       (process_filter [⟨0, 1, 5⟩, ⟨1, 6, 10⟩] 20 4 6
          ([1, 2, 3, 4, 5, 6, 7, 8, 9, 10] : List Int)
          [(AtomicPredicate.always, AtomicPredicate.always)]).pushed) :=
  ⟨by decide, by decide,
    output_buffering_transparent [⟨0, 1, 5⟩, ⟨1, 6, 10⟩] 20 4 6
      [1, 2, 3, 4, 5, 6, 7, 8, 9, 10] [(AtomicPredicate.always, AtomicPredicate.always)]
      (by decide)⟩

/-- C17 (candidate blocks are wholly inside one range).  Let every range be
`(v >= a, v <= b)`, let `z` be the zone at index `i` of the zone map and let
it be sound for block `i` (`z.min <= r <= z.max` for every record `r` of the
block).  If phase 1 of `process_filter` selects `i`, then one single range
`(a, b)` is satisfied by every record of block `i`, so the record-level test
of phase 2 accepts every record of the block. -/
theorem candidate_block_inside_one_range {α : Type} [LinearOrder α] [Inhabited α]
    (zones : List (Zone α)) (bounds : List (α × α))
    (block_size sizeof_T sizeof_position : Nat) (data_file : List α) (i : Nat) (z : Zone α)
    (hz : zones[i]? = some z)
    (hsound : ∀ (p : Nat) (r : α), i * (block_size / sizeof_T) ≤ p →
      p < (i + 1) * (block_size / sizeof_T) → data_file[p]? = some r → z.min ≤ r ∧ r ≤ z.max)
    (hcand : i ∈ (process_filter zones block_size sizeof_T sizeof_position data_file
      (intervalPreds bounds)).qualified_block_indices) :
    (∃ ab ∈ bounds, ∀ (p : Nat) (r : α), i * (block_size / sizeof_T) ≤ p →
      p < (i + 1) * (block_size / sizeof_T) → data_file[p]? = some r →
      (AtomicPredicate.ge ab.1).evaluate_expr r = true ∧
      (AtomicPredicate.le ab.2).evaluate_expr r = true) ∧
    ∀ (p : Nat) (r : α), i * (block_size / sizeof_T) ≤ p →
      p < (i + 1) * (block_size / sizeof_T) → data_file[p]? = some r →
      accepts_value (intervalPreds bounds) r = true := by
  rw [process_filter_candidates] at hcand
  rcases (mem_pruneLoop _ _ _ _ _).1 hcand with h | ⟨z1, _, hz1, hq⟩
  · simp at h
  · rw [Nat.sub_zero, hz] at hz1
    cases hz1
    rw [zone_qualifies_eq_any, List.any_eq_true] at hq
    obtain ⟨pp, hpp, hacc⟩ := hq
    obtain ⟨ab, hab, rfl⟩ := List.mem_map.1 hpp
    simp only [AtomicPredicate.ge, AtomicPredicate.le, Bool.and_eq_true,
      decide_eq_true_eq] at hacc
    have hone : ∀ (p : Nat) (r : α), i * (block_size / sizeof_T) ≤ p →
        p < (i + 1) * (block_size / sizeof_T) → data_file[p]? = some r →
        (AtomicPredicate.ge ab.1).evaluate_expr r = true ∧
        (AtomicPredicate.le ab.2).evaluate_expr r = true := by
      intro p r h1 h2 h3
      obtain ⟨hlo, hhi⟩ := hsound p r h1 h2 h3
      simp only [AtomicPredicate.ge, AtomicPredicate.le, decide_eq_true_eq]
      exact ⟨le_trans hacc.1 hlo, le_trans hhi hacc.2⟩
    refine ⟨⟨ab, hab, hone⟩, ?_⟩
    intro p r h1 h2 h3
    rw [accepts_value, List.any_eq_true]
    refine ⟨(AtomicPredicate.ge ab.1, AtomicPredicate.le ab.2), hpp, ?_⟩
    rw [Bool.and_eq_true]
    exact hone p r h1 h2 h3

/-- The zone `(1,6,10)` of the column `[1..10]` and the range `[6, 10]`: an
instance of C17. -/
theorem candidate_block_inside_one_range_witness :
    ([⟨0, 1, 5⟩, ⟨1, 6, 10⟩] : List (Zone Int))[1]? = some ⟨1, 6, 10⟩ ∧
    (∀ (p : Nat) (r : Int), 1 * (20 / 4) ≤ p → p < (1 + 1) * (20 / 4) →
      ([1, 2, 3, 4, 5, 6, 7, 8, 9, 10] : List Int)[p]? = some r →
      (⟨1, 6, 10⟩ : Zone Int).min ≤ r ∧ r ≤ (⟨1, 6, 10⟩ : Zone Int).max) ∧
    1 ∈ (process_filter [⟨0, 1, 5⟩, ⟨1, 6, 10⟩] 20 4 4
      ([1, 2, 3, 4, 5, 6, 7, 8, 9, 10] : List Int)
      (intervalPreds [(6, 10)])).qualified_block_indices ∧
    ((∃ ab ∈ [((6 : Int), (10 : Int))], ∀ (p : Nat) (r : Int), 1 * (20 / 4) ≤ p →
      p < (1 + 1) * (20 / 4) → ([1, 2, 3, 4, 5, 6, 7, 8, 9, 10] : List Int)[p]? = some r →
      (AtomicPredicate.ge ab.1).evaluate_expr r = true ∧
      (AtomicPredicate.le ab.2).evaluate_expr r = true) ∧
     ∀ (p : Nat) (r : Int), 1 * (20 / 4) ≤ p → p < (1 + 1) * (20 / 4) →
      ([1, 2, 3, 4, 5, 6, 7, 8, 9, 10] : List Int)[p]? = some r →
      accepts_value (intervalPreds [((6 : Int), (10 : Int))]) r = true) :=
  have hsound : ∀ (p : Nat) (r : Int), 1 * (20 / 4) ≤ p → p < (1 + 1) * (20 / 4) →
      ([1, 2, 3, 4, 5, 6, 7, 8, 9, 10] : List Int)[p]? = some r →
      (⟨1, 6, 10⟩ : Zone Int).min ≤ r ∧ r ≤ (⟨1, 6, 10⟩ : Zone Int).max := by
    intro p r h1 h2 h3
    simp only [Nat.reduceDiv, Nat.reduceMul, Nat.reduceAdd] at h1 h2
    interval_cases p <;> simp at h3 <;> subst h3 <;> decide
  ⟨by decide, hsound, by decide,
    candidate_block_inside_one_range [⟨0, 1, 5⟩, ⟨1, 6, 10⟩] [(6, 10)] 20 4 4
      [1, 2, 3, 4, 5, 6, 7, 8, 9, 10] 1 ⟨1, 6, 10⟩ (by decide) hsound (by decide)⟩

end CX4123
